import Mathlib

/-!
# Tic-tac-toe: game engine, focus navigation, theme and input handlers of `src/script.js`

A shallow embedding of `script.js`.  The module-level variables `board`,
`currentPlayer`, `gameOver`, `winningLine`, `focusedIndex` and the parts of
the document the game code writes to (`statusEl.textContent`, each cell's
`tabIndex`, the cell holding input focus) are the fields of `State`; every
function of the script that mutates them is a function from `State` to
`State`.  The theme code has a state of its own, `ThemeState`, and the event
listeners are modelled by the calls they make.

Modelling conventions.
* A board cell is `null`, `"X"` or `"O"`: `Option Player`.
* `board` is a JavaScript array: a `List Cell`.  Reading past the end gives
  `undefined`, which is falsy like `null`; both are `none`.
* An element of `WINNING_LINES` is a three-element array, destructured as
  `[a, b, c]`: a triple of indices.
* `render()` only writes display attributes of the cell widgets (text, CSS
  classes, `aria-label`, `aria-disabled`), which no function reads back; these
  attributes are not part of `State`.
* Numbers are the integers the script computes with: `Nat` for a board
  index, `Int` where the script subtracts (`focusedIndex`, `dx`, `dy`,
  `tabIndex`).  A number read from the document by `Number.parseInt` is a
  double: `parseInt10` rounds it, and gives `none` when it is not finite.
* A function of the model is one call of the script function, up to its return,
  with what the host runs inside it: `cells[i].focus()` delivers `focusin` to
  the listener of the board before it returns, and that listener is part of
  `setFocusedCell`.  Events the user causes (clicks, key presses, the focus
  moving on its own) are separate calls of the listeners.
* The markup of the page is not part of the script.  What the script reads of
  it, the number of cells and the `data-index` attribute of each, is part of
  `State` (`tabIndex.length`, `dataIndex`), and a statement that needs the
  cells to carry their positions says so (`wellIndexed`).
-/

namespace TicTacToe

/-- The two marks, the strings `"X"` and `"O"` of the script. -/
inductive Player where
  | X
  | O
  deriving DecidableEq, Repr

/-- The string a player is rendered as inside a template literal. -/
def Player.str : Player → String
  | .X => "X"
  | .O => "O"

/-- Content of a cell: `none` is `null` (or `undefined`). -/
abbrev Cell := Option Player

/-- A winning line `[a, b, c]`. -/
abbrev Line := Nat × Nat × Nat

/-- The constant `WINNING_LINES` (script.js, lines 11-20). -/
def WINNING_LINES : List Line :=
  [(0, 1, 2), (3, 4, 5), (6, 7, 8),
   (0, 3, 6), (1, 4, 7), (2, 5, 8),
   (0, 4, 8), (2, 4, 6)]

/-- Array read `board[i]`. -/
def cellAt (board : List Cell) (i : Nat) : Cell :=
  board.getD i none

/-- Array write `board[i] = v`.  Inside the array the element is replaced; past
the end JavaScript grows the array, the skipped positions reading as
`undefined`.  (The model is exact for `i < board.length`, which is the case in
every call the statements below consider; array holes are not told apart from
`null`.) -/
def arrayAssign (board : List Cell) (i : Nat) (v : Cell) : List Cell :=
  if i < board.length then board.set i v
  else board ++ List.replicate (i - board.length) none ++ [v]

/-- The object `{ player, line }` returned by `getWinner`. -/
structure Winner where
  player : Player
  line : Line
  deriving DecidableEq, Repr

/-- The `for (const line of WINNING_LINES)` loop of `getWinner`, over the lines
still to be visited.  The test `board[a] && board[a] === board[b] &&
board[a] === board[c]` succeeds when `board[a]` is a mark and the other two
cells hold the same mark; the loop returns at the first such line. -/
def getWinnerLoop (board : List Cell) : List Line → Option Winner
  | [] => none
  | (a, b, c) :: rest =>
    match cellAt board a with
    | some p =>
      if cellAt board a = cellAt board b ∧ cellAt board a = cellAt board c then
        some { player := p, line := (a, b, c) }
      else getWinnerLoop board rest
    | none => getWinnerLoop board rest

/-- Function `getWinner` (script.js, lines 92-100), with the global `board` as argument. -/
def getWinner (board : List Cell) : Option Winner :=
  getWinnerLoop board WINNING_LINES

/-- The globals of the script together with the document state it writes. -/
structure State where
  /-- Global `board`. -/
  board : List Cell
  /-- Global `currentPlayer`. -/
  currentPlayer : Player
  /-- Global `gameOver`. -/
  gameOver : Bool
  /-- Global `winningLine`. -/
  winningLine : Option Line
  /-- Global `focusedIndex`. -/
  focusedIndex : Int
  /-- The text `statusEl.textContent`, written by `setStatus`. -/
  status : String
  /-- The `tabIndex` of each element of `cells`, in order. -/
  tabIndex : List Int
  /-- The cell that received input focus through `cells[i].focus()`, if any. -/
  activeCell : Option Nat
  /-- The `data-index` attribute of each element of `cells`, in order; `none`
  for a cell without the attribute.  The script never writes it. -/
  dataIndex : List (Option String)
  deriving DecidableEq, Repr

/-- Function `setStatus` (script.js, lines 81-83). -/
def setStatus (s : State) (message : String) : State :=
  { s with status := message }

/-- Function `tryPlayAt` (script.js, lines 141-175). -/
def tryPlayAt (s : State) (index : Nat) : State :=
  if s.gameOver then
    setStatus s "Game over. Press Restart to play again."
  else if (cellAt s.board index).isSome then
    setStatus s ("That cell is taken. " ++ s.currentPlayer.str ++ "\x27s turn.")
  else
    let s1 := { s with board := arrayAssign s.board index (some s.currentPlayer) }
    match getWinner s1.board with
    | some winner =>
      setStatus { s1 with gameOver := true, winningLine := some winner.line }
        (winner.player.str ++ " wins! Press Restart to play again.")
    | none =>
      if s1.board.all Option.isSome then
        setStatus { s1 with gameOver := true, winningLine := none }
          "It\x27s a draw. Press Restart to play again."
      else
        let s2 := { s1 with
          currentPlayer := if s1.currentPlayer = Player.X then Player.O else Player.X }
        setStatus s2 (s2.currentPlayer.str ++ "\x27s turn.")

/-- Result of a call that an uncaught `TypeError` may end: the globals and
document state as the call left them, and whether the error was raised. -/
structure Outcome where
  state : State
  threw : Bool
  deriving DecidableEq, Repr

/-! ### Numbers read from the document

An index that comes from the document is a JavaScript number.  The model
keeps a finite number as the integer it is and writes `none` for a number
that is not finite (`NaN` or an infinity); every use the script makes of an
index treats the non-finite numbers alike. -/

/-- The white space `Number.parseInt` skips at the start of its input
(`StrWhiteSpaceChar`): tab, line feed, vertical tab, form feed, carriage
return, space, no-break space, the space separators, the line and paragraph
separators and the byte order mark. -/
def isStrWhiteSpace (c : Char) : Bool :=
  [0x09, 0x0A, 0x0B, 0x0C, 0x0D, 0x20, 0xA0, 0x1680, 0x2000, 0x2001, 0x2002, 0x2003,
    0x2004, 0x2005, 0x2006, 0x2007, 0x2008, 0x2009, 0x200A, 0x2028, 0x2029, 0x202F,
    0x205F, 0x3000, 0xFEFF].contains c.toNat

/-- The binary exponent `e` at which `n` has at most 53 significant bits,
`n < 2 ^ (53 + e)`, searched upwards from `e`; `none` when `n` is `2 ^ 1024` or
more, beyond every double. -/
def doubleExponent : Nat → Nat → Nat → Option Nat
  | 0, _, _ => none
  | fuel + 1, n, e => if n < 2 ^ (53 + e) then some e else doubleExponent fuel n (e + 1)

/-- The Number value of a non-negative integer: the nearest double, ties going
to the even significand; `none` is `Infinity`, reached when the exponent is
beyond 971 or the rounded significand `2 ^ 53` at exponent 971 makes
`2 ^ 1024`.  Integers below `2 ^ 53` are kept. -/
def numberOfNat (n : Nat) : Option Nat :=
  match doubleExponent 972 n 0 with
  | none => none
  | some e =>
    let q := n / 2 ^ e
    let r := n % 2 ^ e
    let q1 := if 2 ^ e < 2 * r ∨ (2 * r = 2 ^ e ∧ q % 2 = 1) then q + 1 else q
    if q1 = 2 ^ 53 ∧ e = 971 then none else some (q1 * 2 ^ e)

/-- The Number value of an integer; `none` is an infinity. -/
def numberOfInt (n : Int) : Option Int :=
  (numberOfNat n.natAbs).map (fun m => if n < 0 then -(m : Int) else (m : Int))

/-- The host function `Number.parseInt(input, 10)`: `undefined` is read as the
string "undefined"; leading white space is skipped, a sign is taken, and the
longest run of decimal digits that follows is the value, as a Number; without
a digit the result is `NaN`.  The result `none` is `NaN` or an infinity.
(For more than twenty significant digits the standard lets an engine drop
the digits after the twentieth; the model rounds the exact value.) -/
def parseInt10 (input : Option String) : Option Int :=
  let text := (input.getD "undefined").toList.dropWhile isStrWhiteSpace
  let negative := text.head? == some '-'
  let unsigned :=
    match text with
    | '-' :: rest => rest
    | '+' :: rest => rest
    | _ => text
  let digits := unsigned.takeWhile Char.isDigit
  if digits.isEmpty then none
  else
    let magnitude : Int := digits.foldl (fun acc d => acc * 10 + ((d.toNat - 48 : Nat) : Int)) 0
    numberOfInt (if negative then -magnitude else magnitude)

/-- The assignments of `setFocusedCell` (script.js, lines 103-106):
`focusedIndex` and the `tabIndex` of every cell.  This is the whole call
`setFocusedCell(nextIndex, { focus: false })`, which cannot raise. -/
def markFocusedCell (s : State) (nextIndex : Int) : State :=
  { s with
    focusedIndex := nextIndex
    tabIndex := (List.range s.tabIndex.length).map
      (fun (i : Nat) => if (i : Int) = nextIndex then (0 : Int) else -1) }

/-- The `focusin` listener of the board (script.js, lines 203-211) for an event
whose target is the cell `cells[cell]`: `closest(".cell")` is that cell, its
`data-index` is parsed, and unless the result is not finite the listener calls
`setFocusedCell(index, { focus: false })`. -/
def focusinOnCell (s : State) (cell : Nat) : State :=
  match parseInt10 (s.dataIndex.getD cell none) with
  | none => s
  | some index => markFocusedCell s index

/-- Function `setFocusedCell` (script.js, lines 102-110).  The number of cell
widgets `cells.length` is the length of `tabIndex`.  With `focus` set the call
ends in `cells[nextIndex].focus(...)`.  That raises a `TypeError` when
`cells[nextIndex]` is `undefined`, after the assignments before it.
Otherwise the cell receives the input focus, and unless it had it already the
host delivers `focusin` before `focus` returns: the listener of the board runs
inside the call.  (A cell that cannot take the focus causes no event either;
it then behaves like the cell that has the focus already, except for
`activeCell`.) -/
def setFocusedCell (s : State) (nextIndex : Int) (focus : Bool) : Outcome :=
  let s1 := markFocusedCell s nextIndex
  if focus then
    if 0 ≤ nextIndex ∧ nextIndex < s.tabIndex.length then
      if s1.activeCell = some nextIndex.toNat then
        { state := s1, threw := false }
      else
        { state := focusinOnCell { s1 with activeCell := some nextIndex.toNat } nextIndex.toNat,
          threw := false }
    else
      { state := s1, threw := true }
  else
    { state := s1, threw := false }

/-- Function `restartGame` (script.js, lines 127-139). -/
def restartGame (s : State) (focusBoard : Bool) : Outcome :=
  let s1 := { s with
    board := List.replicate 9 none
    currentPlayer := Player.X
    gameOver := false
    winningLine := none }
  let s2 := setStatus s1 (s1.currentPlayer.str ++ "\x27s turn.")
  if focusBoard then setFocusedCell s2 0 true
  else { state := s2, threw := false }

/-- Function `clamp` (script.js, lines 177-179): `Math.min(max, Math.max(min, value))`. -/
def clamp (value lo hi : Int) : Int :=
  min hi (max lo value)

/-- Function `moveFocusBy` (script.js, lines 181-190).  `Math.floor(x / 3)` is
floor division and `%` is the remainder that takes the sign of the dividend. -/
def moveFocusBy (s : State) (dx dy : Int) : Outcome :=
  let row := Int.fdiv s.focusedIndex 3
  let col := Int.tmod s.focusedIndex 3
  let nextRow := clamp (row + dy) 0 2
  let nextCol := clamp (col + dx) 0 2
  let nextIndex := nextRow * 3 + nextCol
  setFocusedCell s nextIndex true

/-- The globals as the script initialises them (script.js, lines 22-26), before
the first `restartGame()`, in a document with `n` cell widgets, none of which
carries a `tabindex` attribute or the focus, and each of which carries its
position, in decimal, as `data-index`. -/
def initialState (n : Nat) : State :=
  { board := List.replicate 9 none
    currentPlayer := Player.X
    gameOver := false
    winningLine := none
    focusedIndex := 0
    status := ""
    tabIndex := List.replicate n 0
    activeCell := none
    dataIndex := (List.range n).map (fun i => some (Nat.repr i)) }

/-- Successive `tryPlayAt` calls, one per index of the list. -/
def playAll (s : State) : List Nat → State
  | [] => s
  | i :: rest => playAll (tryPlayAt s i) rest

/-- A fresh game in a document with nine cell widgets: the state after the
`restartGame()` call that ends the script (script.js, line 301). -/
def freshGame : State :=
  (restartGame (initialState 9) false).state

/-- The state `s` with the focus bookkeeping (`focusedIndex`, the cells'
`tabIndex`, the focused cell) and the cells' `data-index` replaced. -/
def withFocus (s : State) (f : Int) (t : List Int) (a : Option Nat)
    (d : List (Option String)) : State :=
  { s with focusedIndex := f, tabIndex := t, activeCell := a, dataIndex := d }

/-- Scenario state: a fresh game after the move at index 4. -/
def afterCentre : State :=
  tryPlayAt freshGame 4

/-- Scenario state: a fresh game after the moves 0, 4, 1, 5, 2 (X wins on the top row). -/
def wonGame : State :=
  playAll freshGame [0, 4, 1, 5, 2]

/-- Scenario state: a fresh game after the moves 0, 1, 2, 4, 3, 5, 7, 6; only cell 8 is empty. -/
def lastCellOpen : State :=
  playAll freshGame [0, 1, 2, 4, 3, 5, 7, 6]

/-! ## Theme

The theme code reads and writes the attribute
`document.documentElement.dataset.theme`, the `localStorage` item under
`THEME_STORAGE_KEY`, and three attributes of the toggle button.  Operations of
the host that can raise (`localStorage.getItem`, `localStorage.setItem`) return
an `Except`; a function of the script that can only end normally still has
the type `Except JsError _` when it calls one of them inside `try`/`catch`, so
that "ends without raising" is a statement about its value. -/

/-- An exception raised while the script runs. -/
inductive JsError where
  /-- The storage is unavailable or refuses the access. -/
  | storage
  deriving DecidableEq, Repr

/-- The attributes of the theme toggle button that `updateThemeToggleUi` writes. -/
structure ToggleUi where
  textContent : String
  ariaPressed : String
  ariaLabel : String
  deriving DecidableEq, Repr

/-- What the host environment offers to the theme code. -/
structure Host where
  /-- `localStorage.getItem` raises. -/
  getItemThrows : Bool
  /-- `localStorage.setItem` raises. -/
  setItemThrows : Bool
  /-- `window.matchMedia` is defined. -/
  hasMatchMedia : Bool
  /-- The value of `window.matchMedia("(prefers-color-scheme: dark)").matches`. -/
  prefersDark : Bool
  /-- The media query list has a function `addEventListener`. -/
  hasAddEventListener : Bool
  /-- The media query list has a function `addListener`. -/
  hasAddListener : Bool
  deriving DecidableEq, Repr

/-- The document and storage state of the theme code. -/
structure ThemeState where
  /-- The attribute `document.documentElement.dataset.theme`, `none` when unset. -/
  dataTheme : Option String
  /-- The `localStorage` item under `THEME_STORAGE_KEY`, `none` when absent. -/
  stored : Option String
  /-- The toggle button `themeToggleBtn`, `none` when the document has none. -/
  toggleBtn : Option ToggleUi
  /-- The `change` handler of the script is registered on the media query. -/
  listening : Bool
  deriving DecidableEq, Repr

/-- Function `normalizeTheme` (script.js, lines 28-30); `none` is `null` or `undefined`. -/
def normalizeTheme (value : Option String) : Option String :=
  if value = some "dark" ∨ value = some "light" then value else none

/-- The host call `localStorage.getItem(THEME_STORAGE_KEY)`. -/
def localStorageGetItem (h : Host) (s : ThemeState) : Except JsError (Option String) :=
  if h.getItemThrows then Except.error JsError.storage else Except.ok s.stored

/-- The host call `localStorage.setItem(THEME_STORAGE_KEY, theme)`. -/
def localStorageSetItem (h : Host) (s : ThemeState) (theme : String) :
    Except JsError ThemeState :=
  if h.setItemThrows then Except.error JsError.storage
  else Except.ok { s with stored := some theme }

/-- Function `getStoredTheme` (script.js, lines 32-38): the `catch` returns `null`. -/
def getStoredTheme (h : Host) (s : ThemeState) : Except JsError (Option String) :=
  match localStorageGetItem h s with
  | Except.ok value => Except.ok (normalizeTheme value)
  | Except.error _ => Except.ok none

/-- Function `storeTheme` (script.js, lines 40-46): the `catch` ignores the failure. -/
def storeTheme (h : Host) (s : ThemeState) (theme : String) : Except JsError ThemeState :=
  match localStorageSetItem h s theme with
  | Except.ok s1 => Except.ok s1
  | Except.error _ => Except.ok s

/-- Function `getSystemTheme` (script.js, lines 48-51). -/
def getSystemTheme (h : Host) : String :=
  if !h.hasMatchMedia then "dark"
  else if h.prefersDark then "dark" else "light"

/-- Function `updateThemeToggleUi` (script.js, lines 53-63). -/
def updateThemeToggleUi (s : ThemeState) (theme : String) : ThemeState :=
  match s.toggleBtn with
  | none => s
  | some _ =>
    let isDark := theme == "dark"
    let button : ToggleUi :=
      { textContent := "Theme: " ++ (if isDark then "Dark" else "Light")
        ariaPressed := if isDark then "true" else "false"
        ariaLabel := "Theme: " ++ (if isDark then "Dark" else "Light") ++
          ". Activate to switch to " ++ (if isDark then "Light" else "Dark") ++ " mode." }
    { s with toggleBtn := some button }

/-- Function `applyTheme` (script.js, lines 65-68). -/
def applyTheme (s : ThemeState) (theme : String) : ThemeState :=
  updateThemeToggleUi { s with dataTheme := some theme } theme

/-- Function `setTheme` (script.js, lines 70-73); `persist` defaults to `true`. -/
def setTheme (h : Host) (s : ThemeState) (theme : String) (persist : Bool) :
    Except JsError ThemeState :=
  let s1 := applyTheme s theme
  if persist then storeTheme h s1 theme else Except.ok s1

/-- Function `toggleTheme` (script.js, lines 75-79). -/
def toggleTheme (h : Host) (s : ThemeState) : Except JsError ThemeState :=
  let current := (normalizeTheme s.dataTheme).getD "dark"
  let next := if current = "dark" then "light" else "dark"
  setTheme h s next true

/-- The `change` handler of the media query (script.js, lines 290-292), called
with `event.matches`. -/
def systemThemeHandler (h : Host) (s : ThemeState) (eventMatches : Bool) :
    Except JsError ThemeState :=
  setTheme h s (if eventMatches then "dark" else "light") false

/-- The theme part of the script body (script.js, lines 284-299): the initial
theme is resolved and applied, and the `change` handler is registered when no
stored theme was found and the host has `matchMedia` with one of the two
listener functions. -/
def startTheme (h : Host) (s : ThemeState) : Except JsError ThemeState := do
  let storedTheme ← getStoredTheme h s
  let initialTheme := storedTheme.getD (getSystemTheme h)
  let s1 ← setTheme h s initialTheme false
  if storedTheme.isNone ∧ h.hasMatchMedia then
    if h.hasAddEventListener then pure { s1 with listening := true }
    else if h.hasAddListener then pure { s1 with listening := true }
    else pure s1
  else pure s1

/-- What happens to the theme during a session: the user activates the toggle
(button click, or key `t`), or the system colour scheme changes and the host
notifies the registered handler with `matches` telling whether it is dark. -/
inductive ThemeEvent where
  | toggle
  | systemChange (dark : Bool)
  deriving DecidableEq, Repr

/-- One event of a session: a system change reaches the handler only when it
is registered. -/
def themeStep (h : Host) (s : ThemeState) : ThemeEvent → Except JsError ThemeState
  | ThemeEvent.toggle => toggleTheme h s
  | ThemeEvent.systemChange dark =>
    if s.listening then systemThemeHandler h s dark else Except.ok s

/-- The events of a session in order, stopping at the first uncaught exception. -/
def themeRun (h : Host) (s : ThemeState) : List ThemeEvent → Except JsError ThemeState
  | [] => Except.ok s
  | e :: rest =>
    match themeStep h s e with
    | Except.ok s1 => themeRun h s1 rest
    | Except.error err => Except.error err

/-- A session: the script body, then the events. -/
def themeSession (h : Host) (s : ThemeState) (events : List ThemeEvent) :
    Except JsError ThemeState :=
  match startTheme h s with
  | Except.ok s1 => themeRun h s1 events
  | Except.error err => Except.error err

/-- A host with working storage and `matchMedia`, the system scheme being dark. -/
def darkHost : Host :=
  { getItemThrows := false
    setItemThrows := false
    hasMatchMedia := true
    prefersDark := true
    hasAddEventListener := true
    hasAddListener := true }

/-- A document before the script runs: no theme attribute, nothing stored, a
toggle button without text. -/
def blankTheme : ThemeState :=
  { dataTheme := none
    stored := none
    toggleBtn := some { textContent := "", ariaPressed := "", ariaLabel := "" }
    listening := false }

/-! ## Input handlers

The event listeners of the script are anonymous functions; each is modelled
by the list of calls its body makes, in program order, for the data of the
event it reads.  A call that raises ends the listener: the list stops with
it.  An index passed on is a JavaScript number: an integer, or `none` for a
number that is not finite. -/

/-- JavaScript `a < b` on two strings: the first position where they differ
decides, and a proper prefix is smaller.  (Characters are compared by code
point, which agrees with the comparison of code units whenever one of the
strings is made of ASCII characters, as "1" and "9" are.) -/
def stringLt : List Char → List Char → Bool
  | _, [] => false
  | [], _ :: _ => true
  | a :: as, b :: bs =>
    if a.toNat < b.toNat then true
    else if b.toNat < a.toNat then false
    else stringLt as bs

/-- JavaScript `a >= b` on strings, which is `!(a < b)`. -/
def stringGe (a b : String) : Bool :=
  !stringLt a.toList b.toList

/-- JavaScript `a <= b` on strings, which is `!(b < a)`. -/
def stringLe (a b : String) : Bool :=
  !stringLt b.toList a.toList

/-- A call of a function of the script made by an event listener. -/
inductive Call where
  | setFocusedCell (nextIndex : Option Int) (focus : Bool)
  | tryPlayAt (index : Option Int)
  | moveFocusBy (dx dy : Int)
  | toggleTheme
  | restartGame (focusBoard : Bool)
  deriving DecidableEq, Repr

/-- The `click` listener of the board (script.js, lines 192-201).  `cell` is
`event.target.closest(".cell")`: `none` when the click is outside every cell,
otherwise the `data-index` attribute of the cell, `none` when it has none.
The listener returns when the parsed index is not finite; its call of
`setFocusedCell` has `focus: false` and cannot raise. -/
def boardClick (cell : Option (Option String)) : List Call :=
  match cell with
  | none => []
  | some dataIndex =>
    match parseInt10 dataIndex with
    | none => []
    | some index => [Call.setFocusedCell (some index) false, Call.tryPlayAt (some index)]

/-- The `focusin` listener of the board (script.js, lines 203-211). -/
def boardFocusin (cell : Option (Option String)) : List Call :=
  match cell with
  | none => []
  | some dataIndex =>
    match parseInt10 dataIndex with
    | none => []
    | some index => [Call.setFocusedCell (some index) false]

/-- The `keydown` listener of the board (script.js, lines 213-242), for `event.key`. -/
def boardKeydown (key : String) : List Call :=
  if key = "ArrowLeft" then [Call.moveFocusBy (-1) 0]
  else if key = "ArrowRight" then [Call.moveFocusBy 1 0]
  else if key = "ArrowUp" then [Call.moveFocusBy 0 (-1)]
  else if key = "ArrowDown" then [Call.moveFocusBy 0 1]
  else if key = "Home" then [Call.setFocusedCell (some 0) true]
  else if key = "End" then [Call.setFocusedCell (some 8) true]
  else []

/-- The fields of a keyboard event the document listener reads. -/
structure KeyEvent where
  key : String
  metaKey : Bool
  ctrlKey : Bool
  altKey : Bool
  deriving DecidableEq, Repr

/-- The call `setFocusedCell(index, { focus: true })` raises: `cells[index]` is
`undefined`, for an index that is not finite as for one outside the cells. -/
def focusRaises (s : State) (index : Option Int) : Bool :=
  match index with
  | none => true
  | some n => (setFocusedCell s n true).threw

/-- The `keydown` listener of the document (script.js, lines 250-277), in the
state `s`.  `appHasFocus` is the value the listener computes from
`document.activeElement`.  The index of a digit key is
`Number.parseInt(event.key, 10) - 1`; `tryPlayAt` is reached only when
`setFocusedCell` has returned. -/
def documentKeydown (s : State) (event : KeyEvent) (appHasFocus : Bool) : List Call :=
  if event.metaKey || event.ctrlKey || event.altKey then []
  else if !appHasFocus then []
  else if event.key = "t" ∨ event.key = "T" then [Call.toggleTheme]
  else if event.key = "r" ∨ event.key = "R" then [Call.restartGame true]
  else if stringGe event.key "1" && stringLe event.key "9" then
    let index := (parseInt10 (some event.key)).bind (fun n => numberOfInt (n - 1))
    if focusRaises s index then [Call.setFocusedCell index true]
    else [Call.setFocusedCell index true, Call.tryPlayAt index]
  else []

/-- The `click` listener of the restart button (script.js, lines 279-282), for
`event.detail`. -/
def restartClick (detail : Int) : List Call :=
  [Call.restartGame (detail == 0)]

/-- The indices a list of calls passes to `setFocusedCell` and `tryPlayAt`. -/
def passedIndices : List Call → List (Option Int)
  | [] => []
  | Call.setFocusedCell nextIndex _ :: rest => nextIndex :: passedIndices rest
  | Call.tryPlayAt index :: rest => index :: passedIndices rest
  | _ :: rest => passedIndices rest

/-- The number is an integer in 0..8. -/
def inBoard (index : Option Int) : Bool :=
  match index with
  | some n => decide (0 ≤ n) && decide (n ≤ 8)
  | none => false

/-- A key press without modifier: the event of the character key `c`. -/
def plainKey (key : String) : KeyEvent :=
  { key := key, metaKey := false, ctrlKey := false, altKey := false }

/-! ## Specification vocabulary -/

/-- The three cells of line `l` all hold the mark of player `p`. -/
def lineFilledBy (board : List Cell) (l : Line) (p : Player) : Bool :=
  cellAt board l.1 == some p && cellAt board l.2.1 == some p && cellAt board l.2.2 == some p

/-- Line `l` holds three equal non-empty symbols. -/
def lineComplete (board : List Cell) (l : Line) : Bool :=
  lineFilledBy board l Player.X || lineFilledBy board l Player.O

/-- The opponent of a player. -/
def Player.other : Player → Player
  | .X => .O
  | .O => .X

/-- The states the game can be in: the state after any `restartGame` call, and
from there every state reached by `tryPlayAt` calls on indices 0..8 and by
focus changes (`setFocusedCell`, hence also `moveFocusBy`). -/
inductive Reachable : State → Prop
  | fresh (prior : State) (focusBoard : Bool) : Reachable (restartGame prior focusBoard).state
  | play (s : State) (index : Nat) : Reachable s → index < 9 → Reachable (tryPlayAt s index)
  | focus (s : State) (nextIndex : Int) (focus : Bool) :
      Reachable s → Reachable (setFocusedCell s nextIndex focus).state

/-- The call `tryPlayAt(index)` in state `s` is a successful move: it changes the board. -/
def accepted (s : State) (index : Nat) : Bool :=
  (tryPlayAt s index).board != s.board

/-- The cell contents written by the successful moves of a sequence of
`tryPlayAt` calls, in order: for each call that changes the board, what the
target cell holds after it. -/
def written : State → List Nat → List Cell
  | _, [] => []
  | s, i :: rest =>
    if accepted s i then cellAt (tryPlayAt s i).board i :: written (tryPlayAt s i) rest
    else written (tryPlayAt s i) rest

/-- Scenario state: a fresh game after the moves 0, 4, 1, 5; X to move. -/
def beforeWin : State :=
  playAll freshGame [0, 4, 1, 5]

/-- Scenario state: a fresh game after the moves 0, 3, 1, 4, 5, 6, 8, 7; X to
move, and cell 2 would complete both the top row and the right column. -/
def twoLinesOpen : State :=
  playAll freshGame [0, 3, 1, 4, 5, 6, 8, 7]

/-- The cell `index` of the 3x3 grid (row `index / 3`, column `index % 3`) lies on
the edge of the grid in the direction `(dx, dy)`: leftmost column for a move
left, rightmost for a move right, top row for a move up, bottom row for a
move down. -/
def onEdge (index dx dy : Int) : Bool :=
  (dx == -1 && index % 3 == 0) || (dx == 1 && index % 3 == 2) ||
    (dy == -1 && index / 3 == 0) || (dy == 1 && index / 3 == 2)

/-- The document is well indexed: every cell carries its position as
`data-index`, that is, `Number.parseInt` reads the attribute of `cells[i]` as
`i`.  (The markup of the page is not part of the script; it enters through
`State.dataIndex`.) -/
def wellIndexed (s : State) : Prop :=
  ∀ i : Nat, i < s.tabIndex.length → parseInt10 (s.dataIndex.getD i none) = some (i : Int)

instance instDecidableWellIndexed (s : State) : Decidable (wellIndexed s) := by
  unfold wellIndexed
  infer_instance

/-- Scenario state: a document of nine cells whose last cell carries the
`data-index` "9" instead of "8". -/
def misindexed : State :=
  { initialState 9 with
    dataIndex := [some "0", some "1", some "2", some "3", some "4", some "5", some "6",
      some "7", some "9"] }

/-- Scenario state: a document of nine cells whose first cell carries the
`data-index` "-1" instead of "0". -/
def misindexedFirst : State :=
  { initialState 9 with
    dataIndex := [some "-1", some "1", some "2", some "3", some "4", some "5", some "6",
      some "7", some "8"] }

/-- The roving-tabindex condition at cell `i` of nine: `focusedIndex` is `i`,
cell `i` has `tabIndex` 0 and is the only one that has, and the other eight
cells have `tabIndex` -1. -/
def rovingAt (s : State) (i : Int) : Prop :=
  s.focusedIndex = i ∧ s.tabIndex.length = 9 ∧
    (∀ j : Nat, j < 9 → s.tabIndex[j]? = some (if (j : Int) = i then (0 : Int) else -1)) ∧
    s.tabIndex.count 0 = 1 ∧ s.tabIndex.count (-1) = 8

/-- Scenario state: the position `twoLinesOpen` after X has played cell 2. -/
def twoLinesWon : State :=
  tryPlayAt twoLinesOpen 2

/-- The number of cells of the board that hold the mark of player `p`. -/
def markCount (board : List Cell) (p : Player) : Nat :=
  board.count (some p)

/-- The board X,O,X / O,X,O / O,X,O of the draw scenario, row by row. -/
def statedDrawBoard : List Cell :=
  [some Player.X, some Player.O, some Player.X,
   some Player.O, some Player.X, some Player.O,
   some Player.O, some Player.X, some Player.O]

/-- The board O,X,O / X,O,X / X,O,X: the board of the draw scenario with the
two marks exchanged. -/
def exchangedDrawBoard : List Cell :=
  [some Player.O, some Player.X, some Player.O,
   some Player.X, some Player.O, some Player.X,
   some Player.X, some Player.O, some Player.X]

/-! ## Win detection -/

theorem getWinnerLoop_cons_filled (board : List Cell) (l : Line) (rest : List Line)
    (p : Player) (h : lineFilledBy board l p = true) :
    getWinnerLoop board (l :: rest) = some { player := p, line := l } := by
  obtain ⟨a, b, c⟩ := l
  simp only [lineFilledBy, Bool.and_eq_true, beq_iff_eq] at h
  obtain ⟨⟨ha, hb⟩, hc⟩ := h
  simp [getWinnerLoop, ha, hb, hc]

theorem getWinnerLoop_cons_incomplete (board : List Cell) (l : Line) (rest : List Line)
    (h : lineComplete board l = false) :
    getWinnerLoop board (l :: rest) = getWinnerLoop board rest := by
  obtain ⟨a, b, c⟩ := l
  simp only [lineComplete, lineFilledBy, Bool.or_eq_false_iff, Bool.and_eq_false_iff,
    beq_eq_false_iff_ne, ne_eq] at h
  cases ha : cellAt board a with
  | none => simp [getWinnerLoop, ha]
  | some p =>
    have hne : ¬(some p = cellAt board b ∧ some p = cellAt board c) := by
      rintro ⟨hb, hc⟩
      cases p
      · have h1 := h.1
        simp [ha, ← hb, ← hc] at h1
      · have h2 := h.2
        simp [ha, ← hb, ← hc] at h2
    simp [getWinnerLoop, ha, hne]

theorem lineComplete_of_filled (board : List Cell) (l : Line) (p : Player)
    (h : lineFilledBy board l p = true) : lineComplete board l = true := by
  cases p <;> simp [lineComplete, h]

theorem getWinnerLoop_eq_none_iff (board : List Cell) (ls : List Line) :
    getWinnerLoop board ls = none ↔ ∀ l ∈ ls, lineComplete board l = false := by
  induction ls with
  | nil => simp [getWinnerLoop]
  | cons l rest ih =>
    cases hl : lineComplete board l with
    | false =>
      rw [getWinnerLoop_cons_incomplete board l rest hl, ih]
      simp [hl]
    | true =>
      have hp : ∃ p, lineFilledBy board l p = true := by
        simp only [lineComplete, Bool.or_eq_true] at hl
        rcases hl with h | h
        · exact ⟨_, h⟩
        · exact ⟨_, h⟩
      obtain ⟨p, hp⟩ := hp
      rw [getWinnerLoop_cons_filled board l rest p hp]
      simp [hl]

theorem getWinnerLoop_first (board : List Cell) (pre : List Line) (l : Line)
    (post : List Line) (p : Player)
    (hpre : ∀ k ∈ pre, lineComplete board k = false)
    (hl : lineFilledBy board l p = true) :
    getWinnerLoop board (pre ++ l :: post) = some { player := p, line := l } := by
  induction pre with
  | nil => exact getWinnerLoop_cons_filled board l post p hl
  | cons k pre ih =>
    rw [List.cons_append, getWinnerLoop_cons_incomplete board k _ (hpre k (by simp))]
    exact ih (fun k' hk' => hpre k' (by simp [hk']))

/-- C4: `getWinner` returns `null` exactly when none of the eight fixed lines
holds three equal non-empty symbols; otherwise, for the first line of
`WINNING_LINES` (rows, then columns, then diagonals) that does, it returns
that line together with the symbol on it.  This holds for boards of any
length, in particular for every board of nine cells. -/
theorem getWinner_spec (board : List Cell) :
    WINNING_LINES =
        [(0, 1, 2), (3, 4, 5), (6, 7, 8), (0, 3, 6), (1, 4, 7), (2, 5, 8),
         (0, 4, 8), (2, 4, 6)] ∧
      (getWinner board = none ↔ ∀ l ∈ WINNING_LINES, lineComplete board l = false) ∧
      (∀ (pre : List Line) (l : Line) (post : List Line),
        WINNING_LINES = pre ++ l :: post →
        (∀ k ∈ pre, lineComplete board k = false) →
        lineComplete board l = true →
        ∃ p, lineFilledBy board l p = true ∧
          getWinner board = some { player := p, line := l }) := by
  refine ⟨rfl, getWinnerLoop_eq_none_iff board WINNING_LINES, ?_⟩
  intro pre l post hsplit hpre hl
  have hp : ∃ p, lineFilledBy board l p = true := by
    simp only [lineComplete, Bool.or_eq_true] at hl
    rcases hl with h | h
    · exact ⟨_, h⟩
    · exact ⟨_, h⟩
  obtain ⟨p, hp⟩ := hp
  refine ⟨p, hp, ?_⟩
  unfold getWinner
  rw [hsplit]
  exact getWinnerLoop_first board pre l post p hpre hp

/-! ## The branches of `tryPlayAt` -/

theorem cellAt_arrayAssign_self (board : List Cell) (i : Nat) (v : Cell)
    (h : i < board.length) : cellAt (arrayAssign board i v) i = v := by
  simp [cellAt, arrayAssign, h, List.getD_eq_getElem?_getD]

theorem cellAt_arrayAssign_ne (board : List Cell) (i j : Nat) (v : Cell)
    (h : i < board.length) (hij : j ≠ i) :
    cellAt (arrayAssign board i v) j = cellAt board j := by
  simp [cellAt, arrayAssign, h, List.getD_eq_getElem?_getD, List.getElem?_set_ne (Ne.symm hij)]

theorem cellAt_replicate_none (n i : Nat) :
    cellAt (List.replicate n (none : Cell)) i = none := by
  unfold cellAt
  rw [List.getD_eq_getElem?_getD]
  by_cases h : i < n
  · rw [List.getElem?_eq_getElem (by simpa using h)]
    simp
  · rw [List.getElem?_eq_none (by simpa using h)]
    rfl

theorem length_arrayAssign (board : List Cell) (i : Nat) (v : Cell)
    (h : i < board.length) : (arrayAssign board i v).length = board.length := by
  simp [arrayAssign, h]

theorem all_isSome_iff (board : List Cell) :
    board.all Option.isSome = true ↔ ∀ j, j < board.length → cellAt board j ≠ none := by
  rw [List.all_eq_true]
  constructor
  · intro h j hj
    have := h board[j] (List.getElem_mem hj)
    simp only [cellAt, List.getD_eq_getElem?_getD, List.getElem?_eq_getElem hj, Option.getD_some]
    intro hn
    rw [hn] at this
    exact absurd this (by simp)
  · intro h x hx
    obtain ⟨j, hj, rfl⟩ := List.getElem_of_mem hx
    have := h j hj
    simp only [cellAt, List.getD_eq_getElem?_getD, List.getElem?_eq_getElem hj,
      Option.getD_some] at this
    cases hc : board[j] with
    | none => exact absurd hc this
    | some p => rfl

theorem tryPlayAt_over (s : State) (i : Nat) (h : s.gameOver = true) :
    tryPlayAt s i = { s with status := "Game over. Press Restart to play again." } := by
  simp [tryPlayAt, setStatus, h]

theorem tryPlayAt_taken (s : State) (i : Nat) (h : s.gameOver = false)
    (ho : cellAt s.board i ≠ none) :
    tryPlayAt s i =
      { s with status := "That cell is taken. " ++ s.currentPlayer.str ++ "\x27s turn." } := by
  have : (cellAt s.board i).isSome = true := by
    cases hc : cellAt s.board i with
    | none => exact absurd hc ho
    | some p => rfl
  simp [tryPlayAt, setStatus, h, this]

theorem tryPlayAt_win (s : State) (i : Nat) (w : Winner) (h : s.gameOver = false)
    (he : cellAt s.board i = none)
    (hw : getWinner (arrayAssign s.board i (some s.currentPlayer)) = some w) :
    tryPlayAt s i =
      { s with
        board := arrayAssign s.board i (some s.currentPlayer)
        gameOver := true
        winningLine := some w.line
        status := w.player.str ++ " wins! Press Restart to play again." } := by
  simp [tryPlayAt, setStatus, h, he, hw]

theorem tryPlayAt_draw (s : State) (i : Nat) (h : s.gameOver = false)
    (he : cellAt s.board i = none)
    (hw : getWinner (arrayAssign s.board i (some s.currentPlayer)) = none)
    (hf : (arrayAssign s.board i (some s.currentPlayer)).all Option.isSome = true) :
    tryPlayAt s i =
      { s with
        board := arrayAssign s.board i (some s.currentPlayer)
        gameOver := true
        winningLine := none
        status := "It\x27s a draw. Press Restart to play again." } := by
  simp only [tryPlayAt, setStatus, h, he, hw, hf]
  simp

theorem tryPlayAt_next (s : State) (i : Nat) (h : s.gameOver = false)
    (he : cellAt s.board i = none)
    (hw : getWinner (arrayAssign s.board i (some s.currentPlayer)) = none)
    (hf : (arrayAssign s.board i (some s.currentPlayer)).all Option.isSome = false) :
    tryPlayAt s i =
      { s with
        board := arrayAssign s.board i (some s.currentPlayer)
        currentPlayer := s.currentPlayer.other
        status := s.currentPlayer.other.str ++ "\x27s turn." } := by
  simp only [tryPlayAt, setStatus, h, he, hw, hf]
  cases s.currentPlayer <;> simp [Player.other]

theorem tryPlayAt_board (s : State) (i : Nat) :
    (tryPlayAt s i).board =
      if s.gameOver = false ∧ cellAt s.board i = none then
        arrayAssign s.board i (some s.currentPlayer)
      else s.board := by
  cases h : s.gameOver with
  | true => simp [tryPlayAt_over s i h]
  | false =>
    cases he : cellAt s.board i with
    | some p => simp [tryPlayAt_taken s i h (by simp [he])]
    | none =>
      cases hw : getWinner (arrayAssign s.board i (some s.currentPlayer)) with
      | some w => simp [tryPlayAt_win s i w h he hw]
      | none =>
        cases hf : (arrayAssign s.board i (some s.currentPlayer)).all Option.isSome with
        | true => simp [tryPlayAt_draw s i h he hw hf]
        | false => simp [tryPlayAt_next s i h he hw hf]

theorem tryPlayAt_withFocus (s : State) (i : Nat) (f : Int) (t : List Int) (a : Option Nat)
    (d : List (Option String)) :
    tryPlayAt (withFocus s f t a d) i = withFocus (tryPlayAt s i) f t a d := by
  cases h : s.gameOver with
  | true =>
    rw [tryPlayAt_over s i h, tryPlayAt_over (withFocus s f t a d) i (by simp [withFocus, h])]
    rfl
  | false =>
    cases he : cellAt s.board i with
    | some p =>
      rw [tryPlayAt_taken s i h (by simp [he]),
        tryPlayAt_taken (withFocus s f t a d) i (by simp [withFocus, h]) (by simp [withFocus, he])]
      rfl
    | none =>
      cases hw : getWinner (arrayAssign s.board i (some s.currentPlayer)) with
      | some w =>
        rw [tryPlayAt_win s i w h he hw,
          tryPlayAt_win (withFocus s f t a d) i w (by simp [withFocus, h]) (by simp [withFocus, he])
            (by simpa [withFocus] using hw)]
        rfl
      | none =>
        cases hf : (arrayAssign s.board i (some s.currentPlayer)).all Option.isSome with
        | true =>
          rw [tryPlayAt_draw s i h he hw hf,
            tryPlayAt_draw (withFocus s f t a d) i (by simp [withFocus, h])
              (by simp [withFocus, he]) (by simpa [withFocus] using hw)
              (by simpa [withFocus] using hf)]
          rfl
        | false =>
          rw [tryPlayAt_next s i h he hw hf,
            tryPlayAt_next (withFocus s f t a d) i (by simp [withFocus, h])
              (by simp [withFocus, he]) (by simpa [withFocus] using hw)
              (by simpa [withFocus] using hf)]
          rfl

theorem playAll_withFocus (moves : List Nat) (s : State) (f : Int) (t : List Int)
    (a : Option Nat) (d : List (Option String)) :
    playAll (withFocus s f t a d) moves = withFocus (playAll s moves) f t a d := by
  induction moves generalizing s with
  | nil => rfl
  | cons i rest ih => simp only [playAll, tryPlayAt_withFocus, ih]

theorem setFocusedCell_unfocused (s : State) (n : Int) :
    setFocusedCell s n false = { state := markFocusedCell s n, threw := false } := rfl

theorem setFocusedCell_raises (s : State) (n : Int)
    (h : ¬(0 ≤ n ∧ n < (s.tabIndex.length : Int))) :
    setFocusedCell s n true = { state := markFocusedCell s n, threw := true } := by
  unfold setFocusedCell
  simp only [if_true, if_neg h]

theorem setFocusedCell_refocus (s : State) (n : Int)
    (h : 0 ≤ n ∧ n < (s.tabIndex.length : Int)) (ha : s.activeCell = some n.toNat) :
    setFocusedCell s n true = { state := markFocusedCell s n, threw := false } := by
  have ha2 : (markFocusedCell s n).activeCell = some n.toNat := ha
  unfold setFocusedCell
  simp only [if_true, if_pos h, if_pos ha2]

theorem setFocusedCell_focusin (s : State) (n : Int)
    (h : 0 ≤ n ∧ n < (s.tabIndex.length : Int)) (ha : s.activeCell ≠ some n.toNat) :
    setFocusedCell s n true =
      { state := focusinOnCell { markFocusedCell s n with activeCell := some n.toNat } n.toNat,
        threw := false } := by
  have ha2 : ¬ (markFocusedCell s n).activeCell = some n.toNat := ha
  unfold setFocusedCell
  simp only [if_true, if_pos h, if_neg ha2]

theorem focusinOnCell_state (s : State) (cell : Nat) :
    focusinOnCell s cell =
      withFocus s (focusinOnCell s cell).focusedIndex (focusinOnCell s cell).tabIndex
        s.activeCell s.dataIndex := by
  unfold focusinOnCell
  cases parseInt10 (s.dataIndex.getD cell none) <;> rfl

theorem setFocusedCell_state (s : State) (n : Int) (focus : Bool) :
    (setFocusedCell s n focus).state =
      withFocus s (setFocusedCell s n focus).state.focusedIndex
        (setFocusedCell s n focus).state.tabIndex
        (setFocusedCell s n focus).state.activeCell s.dataIndex := by
  cases focus with
  | false => rfl
  | true =>
    by_cases h : 0 ≤ n ∧ n < (s.tabIndex.length : Int)
    · by_cases ha : s.activeCell = some n.toNat
      · rw [setFocusedCell_refocus s n h ha]
        rfl
      · rw [setFocusedCell_focusin s n h ha]
        simp only
        rw [focusinOnCell_state]
        rfl
    · rw [setFocusedCell_raises s n h]
      rfl

theorem restartGame_eq_withFocus (prior : State) (focusBoard : Bool) :
    (restartGame prior focusBoard).state =
      withFocus freshGame (restartGame prior focusBoard).state.focusedIndex
        (restartGame prior focusBoard).state.tabIndex
        (restartGame prior focusBoard).state.activeCell
        (restartGame prior focusBoard).state.dataIndex := by
  cases focusBoard with
  | false => rfl
  | true =>
    simp only [restartGame, if_true]
    rw [setFocusedCell_state]
    rfl

theorem getWinnerLoop_some (board : List Cell) (ls : List Line) (w : Winner)
    (h : getWinnerLoop board ls = some w) :
    w.line ∈ ls ∧ lineFilledBy board w.line w.player = true := by
  induction ls with
  | nil => simp [getWinnerLoop] at h
  | cons l rest ih =>
    cases hl : lineComplete board l with
    | false =>
      rw [getWinnerLoop_cons_incomplete board l rest hl] at h
      exact ⟨List.mem_cons_of_mem _ (ih h).1, (ih h).2⟩
    | true =>
      have hp : ∃ p, lineFilledBy board l p = true := by
        simp only [lineComplete, Bool.or_eq_true] at hl
        rcases hl with h' | h'
        · exact ⟨_, h'⟩
        · exact ⟨_, h'⟩
      obtain ⟨p, hp⟩ := hp
      rw [getWinnerLoop_cons_filled board l rest p hp] at h
      cases h
      exact ⟨List.mem_cons_self _ _, hp⟩

theorem getWinner_some (board : List Cell) (w : Winner) (h : getWinner board = some w) :
    w.line ∈ WINNING_LINES ∧ lineFilledBy board w.line w.player = true :=
  getWinnerLoop_some board WINNING_LINES w h

theorem getWinner_eq_none_iff (board : List Cell) :
    getWinner board = none ↔ ∀ l ∈ WINNING_LINES, lineComplete board l = false :=
  getWinnerLoop_eq_none_iff board WINNING_LINES

/-- The three ways an accepted move ends: win, draw, or the turn passes. -/
theorem tryPlayAt_accepted_cases (s : State) (i : Nat) (h : s.gameOver = false)
    (he : cellAt s.board i = none) :
    (tryPlayAt s i).board = arrayAssign s.board i (some s.currentPlayer) ∧
      ((∃ w, getWinner (tryPlayAt s i).board = some w ∧
            (tryPlayAt s i).gameOver = true ∧
            (tryPlayAt s i).winningLine = some w.line ∧
            (tryPlayAt s i).currentPlayer = s.currentPlayer ∧
            (tryPlayAt s i).status = w.player.str ++ " wins! Press Restart to play again.") ∨
        (getWinner (tryPlayAt s i).board = none ∧
            (tryPlayAt s i).board.all Option.isSome = true ∧
            (tryPlayAt s i).gameOver = true ∧
            (tryPlayAt s i).winningLine = none ∧
            (tryPlayAt s i).currentPlayer = s.currentPlayer ∧
            (tryPlayAt s i).status = "It\x27s a draw. Press Restart to play again.") ∨
        (getWinner (tryPlayAt s i).board = none ∧
            (tryPlayAt s i).board.all Option.isSome = false ∧
            (tryPlayAt s i).gameOver = false ∧
            (tryPlayAt s i).winningLine = s.winningLine ∧
            (tryPlayAt s i).currentPlayer = s.currentPlayer.other ∧
            (tryPlayAt s i).status = s.currentPlayer.other.str ++ "\x27s turn.")) := by
  cases hw : getWinner (arrayAssign s.board i (some s.currentPlayer)) with
  | some w =>
    rw [tryPlayAt_win s i w h he hw]
    exact ⟨rfl, Or.inl ⟨w, hw, rfl, rfl, rfl, rfl⟩⟩
  | none =>
    cases hf : (arrayAssign s.board i (some s.currentPlayer)).all Option.isSome with
    | true =>
      rw [tryPlayAt_draw s i h he hw hf]
      exact ⟨rfl, Or.inr (Or.inl ⟨hw, hf, rfl, rfl, rfl, rfl⟩)⟩
    | false =>
      rw [tryPlayAt_next s i h he hw hf]
      exact ⟨rfl, Or.inr (Or.inr ⟨hw, hf, h, rfl, rfl, rfl⟩)⟩

theorem wins_ne_draw (p : Player) :
    p.str ++ " wins! Press Restart to play again." ≠
      "It\x27s a draw. Press Restart to play again." := by
  cases p <;> decide

/-! ## Rejected moves, restart and the frame of a move -/

/-- C1: a `tryPlayAt` call on an index in 0..8 whose cell is already non-empty
leaves `board`, `currentPlayer`, `gameOver` and `winningLine` unchanged, and
when the game is not over the status message becomes
"That cell is taken. P's turn." with P the current player.  In particular,
after any restart and one move at index 4, a second call at index 4 changes
none of the four and the message is "That cell is taken. O's turn.". -/
theorem tryPlayAt_occupied_noop (s : State) (index : Nat) (hidx : index < 9)
    (hocc : cellAt s.board index ≠ none) :
    ((tryPlayAt s index).board = s.board ∧
        (tryPlayAt s index).currentPlayer = s.currentPlayer ∧
        (tryPlayAt s index).gameOver = s.gameOver ∧
        (tryPlayAt s index).winningLine = s.winningLine) ∧
      (s.gameOver = false →
        (tryPlayAt s index).status =
          "That cell is taken. " ++ s.currentPlayer.str ++ "\x27s turn.") ∧
      (∀ (prior : State) (focusBoard : Bool),
        (playAll (restartGame prior focusBoard).state [4, 4]).board =
            (playAll (restartGame prior focusBoard).state [4]).board ∧
          (playAll (restartGame prior focusBoard).state [4, 4]).currentPlayer =
            (playAll (restartGame prior focusBoard).state [4]).currentPlayer ∧
          (playAll (restartGame prior focusBoard).state [4, 4]).gameOver =
            (playAll (restartGame prior focusBoard).state [4]).gameOver ∧
          (playAll (restartGame prior focusBoard).state [4, 4]).winningLine =
            (playAll (restartGame prior focusBoard).state [4]).winningLine ∧
          (playAll (restartGame prior focusBoard).state [4, 4]).status =
            "That cell is taken. O\x27s turn.") := by
  have _ := hidx
  refine ⟨?_, ?_, ?_⟩
  · cases h : s.gameOver with
    | true => simp [tryPlayAt_over s index h, h]
    | false => simp [tryPlayAt_taken s index h hocc, h]
  · intro h
    rw [tryPlayAt_taken s index h hocc]
  · intro prior focusBoard
    rw [restartGame_eq_withFocus, playAll_withFocus, playAll_withFocus]
    refine ⟨?_, ?_, ?_, ?_, ?_⟩ <;> simp only [withFocus] <;> decide

/-- Witness for C1: the centre cell after the first move of a fresh game. -/
theorem tryPlayAt_occupied_noop_witness :
    4 < 9 ∧ cellAt afterCentre.board 4 ≠ none ∧
      (tryPlayAt afterCentre 4).board = afterCentre.board ∧
      (tryPlayAt afterCentre 4).currentPlayer = afterCentre.currentPlayer :=
  ⟨by decide, by decide,
    (tryPlayAt_occupied_noop afterCentre 4 (by decide) (by decide)).1.1,
    (tryPlayAt_occupied_noop afterCentre 4 (by decide) (by decide)).1.2.1⟩

/-- C2: when `gameOver` is true, a `tryPlayAt` call on any index in 0..8, empty
cell or not, leaves `board`, `currentPlayer`, `gameOver` and `winningLine`
unchanged and sets the status message to
"Game over. Press Restart to play again.". -/
theorem tryPlayAt_gameOver_noop (s : State) (index : Nat) (hidx : index < 9)
    (hover : s.gameOver = true) :
    (tryPlayAt s index).board = s.board ∧
      (tryPlayAt s index).currentPlayer = s.currentPlayer ∧
      (tryPlayAt s index).gameOver = s.gameOver ∧
      (tryPlayAt s index).winningLine = s.winningLine ∧
      (tryPlayAt s index).status = "Game over. Press Restart to play again." := by
  have _ := hidx
  simp [tryPlayAt_over s index hover]

/-- Witness for C2: a won game, called on the empty cell 3. -/
theorem tryPlayAt_gameOver_noop_witness :
    3 < 9 ∧ wonGame.gameOver = true ∧ cellAt wonGame.board 3 = none ∧
      (tryPlayAt wonGame 3).board = wonGame.board ∧
      (tryPlayAt wonGame 3).status = "Game over. Press Restart to play again." :=
  ⟨by decide, by decide, by decide,
    (tryPlayAt_gameOver_noop wonGame 3 (by decide) (by decide)).1,
    (tryPlayAt_gameOver_noop wonGame 3 (by decide) (by decide)).2.2.2.2⟩

/-- C7: whatever the prior state and whether or not the board is to be
focused, `restartGame` yields a board of nine empty cells, `currentPlayer` X,
`gameOver` false, `winningLine` null and the status message "X's turn.". -/
theorem restartGame_resets (prior : State) (focusBoard : Bool) :
    (restartGame prior focusBoard).state.board = List.replicate 9 none ∧
      (restartGame prior focusBoard).state.board.length = 9 ∧
      (∀ i, cellAt (restartGame prior focusBoard).state.board i = none) ∧
      (restartGame prior focusBoard).state.currentPlayer = Player.X ∧
      (restartGame prior focusBoard).state.gameOver = false ∧
      (restartGame prior focusBoard).state.winningLine = none ∧
      (restartGame prior focusBoard).state.status = "X\x27s turn." := by
  rw [restartGame_eq_withFocus]
  refine ⟨rfl, rfl, ?_, rfl, rfl, rfl, ?_⟩
  · intro i
    exact cellAt_replicate_none 9 i
  · show freshGame.status = "X\x27s turn."
    decide

/-- C8: when the game is not over, a `tryPlayAt` call on an index in 0..8 whose
cell is empty sets that cell to the player who was `currentPlayer` before the
call and leaves every other cell as it was; and no `tryPlayAt` call, accepted
or rejected, changes a cell that was already non-empty. -/
theorem tryPlayAt_frame (s : State) (index : Nat) (hlen : s.board.length = 9)
    (hidx : index < 9) :
    (s.gameOver = false → cellAt s.board index = none →
        cellAt (tryPlayAt s index).board index = some s.currentPlayer ∧
          (tryPlayAt s index).board.length = 9 ∧
          ∀ j, j ≠ index → cellAt (tryPlayAt s index).board j = cellAt s.board j) ∧
      (∀ j, cellAt s.board j ≠ none →
        cellAt (tryPlayAt s index).board j = cellAt s.board j) := by
  have hin : index < s.board.length := by omega
  constructor
  · intro hgo hempty
    rw [tryPlayAt_board, if_pos ⟨hgo, hempty⟩]
    refine ⟨cellAt_arrayAssign_self _ _ _ hin, ?_, ?_⟩
    · rw [length_arrayAssign _ _ _ hin, hlen]
    · intro j hj
      exact cellAt_arrayAssign_ne _ _ _ _ hin hj
  · intro j hj
    rw [tryPlayAt_board]
    split_ifs with hc
    · have hne : j ≠ index := by
        rintro rfl
        exact hj hc.2
      exact cellAt_arrayAssign_ne _ _ _ _ hin hne
    · rfl

/-- Witness for C8: the first move of a fresh game, at the centre. -/
theorem tryPlayAt_frame_witness :
    freshGame.board.length = 9 ∧ 4 < 9 ∧ freshGame.gameOver = false ∧
      cellAt freshGame.board 4 = none ∧
      cellAt (tryPlayAt freshGame 4).board 4 = some freshGame.currentPlayer :=
  ⟨by decide, by decide, by decide, by decide,
    ((tryPlayAt_frame freshGame 4 (by decide) (by decide)).1 (by decide) (by decide)).1⟩

/-! ## Outcome of an accepted move -/

/-- C6: when the game is not over, a `tryPlayAt` call on an empty cell of the
nine-cell board ends in a draw (`gameOver` true, `winningLine` null, message
"It's a draw. Press Restart to play again.") if and only if the board after
the move has no empty cell and no complete line.  A move that completes a
line, also one that fills the ninth cell, ends in a win and never in a draw;
a move that leaves an empty cell and no complete line leaves `gameOver`
false. -/
theorem tryPlayAt_draw_iff (s : State) (index : Nat) (hlen : s.board.length = 9)
    (hidx : index < 9) (hgo : s.gameOver = false) (hempty : cellAt s.board index = none) :
    (((tryPlayAt s index).gameOver = true ∧ (tryPlayAt s index).winningLine = none ∧
          (tryPlayAt s index).status = "It\x27s a draw. Press Restart to play again.") ↔
        ((∀ j, j < 9 → cellAt (tryPlayAt s index).board j ≠ none) ∧
          ∀ l ∈ WINNING_LINES, lineComplete (tryPlayAt s index).board l = false)) ∧
      ((∃ l ∈ WINNING_LINES, lineComplete (tryPlayAt s index).board l = true) →
        (tryPlayAt s index).gameOver = true ∧
          (∃ l p, l ∈ WINNING_LINES ∧ lineFilledBy (tryPlayAt s index).board l p = true ∧
            (tryPlayAt s index).winningLine = some l ∧
            (tryPlayAt s index).status = p.str ++ " wins! Press Restart to play again.") ∧
          (tryPlayAt s index).winningLine ≠ none ∧
          (tryPlayAt s index).status ≠ "It\x27s a draw. Press Restart to play again.") ∧
      ((∃ j, j < 9 ∧ cellAt (tryPlayAt s index).board j = none) →
        (∀ l ∈ WINNING_LINES, lineComplete (tryPlayAt s index).board l = false) →
        (tryPlayAt s index).gameOver = false) := by
  obtain ⟨hb, hcases⟩ := tryPlayAt_accepted_cases s index hgo hempty
  have hlen2 : (tryPlayAt s index).board.length = 9 := by
    rw [hb, length_arrayAssign _ _ _ (by omega), hlen]
  have hfull := all_isSome_iff (tryPlayAt s index).board
  rw [hlen2] at hfull
  have hnone := getWinner_eq_none_iff (tryPlayAt s index).board
  generalize tryPlayAt s index = t at *
  rcases hcases with ⟨w, hw, hover, hline, -, hstatus⟩ | ⟨hw, hf, hover, hline, -, hstatus⟩ |
    ⟨hw, hf, hover, -, -, -⟩
  · obtain ⟨hmem, hfilled⟩ := getWinner_some t.board w hw
    have hcomplete := lineComplete_of_filled t.board w.line w.player hfilled
    refine ⟨⟨?_, ?_⟩, ?_, ?_⟩
    · rintro ⟨-, hl, -⟩
      rw [hline] at hl
      cases hl
    · rintro ⟨-, hno⟩
      rw [hno w.line hmem] at hcomplete
      cases hcomplete
    · intro _
      refine ⟨hover, ⟨w.line, w.player, hmem, hfilled, hline, hstatus⟩, ?_, ?_⟩
      · rw [hline]
        simp
      · rw [hstatus]
        exact wins_ne_draw w.player
    · intro _ hno
      rw [hno w.line hmem] at hcomplete
      cases hcomplete
  · refine ⟨⟨fun _ => ⟨hfull.1 hf, hnone.1 hw⟩, fun _ => ⟨hover, hline, hstatus⟩⟩, ?_, ?_⟩
    · rintro ⟨l, hl, hc⟩
      rw [hnone.1 hw l hl] at hc
      cases hc
    · rintro ⟨j, hj, hcell⟩ _
      exact absurd hcell (hfull.1 hf j hj)
  · refine ⟨⟨?_, ?_⟩, ?_, ?_⟩
    · rintro ⟨ho, -, -⟩
      rw [hover] at ho
      cases ho
    · rintro ⟨hall, -⟩
      rw [hfull.2 hall] at hf
      cases hf
    · rintro ⟨l, hl, hc⟩
      rw [hnone.1 hw l hl] at hc
      cases hc
    · intro _ _
      exact hover

/-- Witness for C6: the ninth move of a game without a complete line. -/
theorem tryPlayAt_draw_iff_witness :
    lastCellOpen.board.length = 9 ∧ 8 < 9 ∧ lastCellOpen.gameOver = false ∧
      cellAt lastCellOpen.board 8 = none ∧
      (tryPlayAt lastCellOpen 8).gameOver = true ∧
      (tryPlayAt lastCellOpen 8).winningLine = none ∧
      (tryPlayAt lastCellOpen 8).status = "It\x27s a draw. Press Restart to play again." :=
  ⟨by decide, by decide, by decide, by decide,
    (tryPlayAt_draw_iff lastCellOpen 8 (by decide) (by decide) (by decide) (by decide)).1.2
      ⟨by decide, by decide⟩⟩

/-! ## Reachable states -/

/-- In a reachable state the board has nine cells, and while the game is not
over no line is complete. -/
theorem reachable_inv (s : State) (h : Reachable s) :
    s.board.length = 9 ∧ (s.gameOver = false → getWinner s.board = none) := by
  induction h with
  | fresh prior focusBoard =>
    rw [restartGame_eq_withFocus]
    refine ⟨rfl, fun _ => ?_⟩
    show getWinner freshGame.board = none
    decide
  | play s index _ hidx ih =>
    obtain ⟨hlen, hno⟩ := ih
    cases hgo : s.gameOver with
    | true =>
      rw [tryPlayAt_over s index hgo]
      exact ⟨hlen, fun h => by simp [hgo] at h⟩
    | false =>
      cases he : cellAt s.board index with
      | some p =>
        rw [tryPlayAt_taken s index hgo (by simp [he])]
        exact ⟨hlen, fun _ => hno hgo⟩
      | none =>
        obtain ⟨hb, hcases⟩ := tryPlayAt_accepted_cases s index hgo he
        refine ⟨by rw [hb, length_arrayAssign _ _ _ (by omega), hlen], ?_⟩
        rcases hcases with ⟨w, -, hover, -⟩ | ⟨-, -, hover, -⟩ | ⟨hw, -⟩
        · intro h
          rw [hover] at h
          cases h
        · intro h
          rw [hover] at h
          cases h
        · exact fun _ => hw
  | focus s nextIndex focus _ ih =>
    rw [setFocusedCell_state]
    exact ih

theorem reachable_playAll (moves : List Nat) (s : State) (h : Reachable s)
    (hmoves : ∀ i ∈ moves, i < 9) : Reachable (playAll s moves) := by
  induction moves generalizing s with
  | nil => exact h
  | cons i rest ih =>
    exact ih (tryPlayAt s i) (Reachable.play s i h (hmoves i (by simp)))
      (fun j hj => hmoves j (by simp [hj]))

theorem reachable_freshGame : Reachable freshGame :=
  Reachable.fresh (initialState 9) false

/-- A line filled by `p` after a write of `p'` to an empty cell of a board
without a complete line passes through the written cell and `p = p'`. -/
theorem filled_after_write (board : List Cell) (i : Nat) (p' p : Player) (l : Line)
    (hi : i < board.length) (hno : lineComplete board l = false)
    (hf : lineFilledBy (arrayAssign board i (some p')) l p = true) :
    (i = l.1 ∨ i = l.2.1 ∨ i = l.2.2) ∧ p = p' := by
  obtain ⟨a, b, c⟩ := l
  simp only [lineFilledBy, Bool.and_eq_true, beq_iff_eq] at hf
  obtain ⟨⟨ha, hb⟩, hc⟩ := hf
  by_cases hia : i = a
  · subst hia
    rw [cellAt_arrayAssign_self _ _ _ hi] at ha
    exact ⟨Or.inl rfl, (Option.some.inj ha).symm⟩
  · by_cases hib : i = b
    · subst hib
      rw [cellAt_arrayAssign_self _ _ _ hi] at hb
      exact ⟨Or.inr (Or.inl rfl), (Option.some.inj hb).symm⟩
    · by_cases hic : i = c
      · subst hic
        rw [cellAt_arrayAssign_self _ _ _ hi] at hc
        exact ⟨Or.inr (Or.inr rfl), (Option.some.inj hc).symm⟩
      · exfalso
        rw [cellAt_arrayAssign_ne _ _ _ _ hi (Ne.symm hia)] at ha
        rw [cellAt_arrayAssign_ne _ _ _ _ hi (Ne.symm hib)] at hb
        rw [cellAt_arrayAssign_ne _ _ _ _ hi (Ne.symm hic)] at hc
        have : lineFilledBy board (a, b, c) p = true := by
          simp [lineFilledBy, ha, hb, hc]
        rw [lineComplete_of_filled board (a, b, c) p this] at hno
        cases hno

/-! ## Winning moves -/

/-- C5, as stated, fails: in the reachable position after the moves
0, 3, 1, 4, 5, 6, 8, 7 the game is not over, cell 2 is empty, and placing X
there completes the right column `[2, 5, 8]`; yet `tryPlayAt(2)` does not set
`winningLine` to that line but to the top row `[0, 1, 2]`, which the same move
also completes and which comes first in `WINNING_LINES`. -/
theorem tryPlayAt_win_line_counterexample :
    Reachable twoLinesOpen ∧ twoLinesOpen.gameOver = false ∧
      cellAt twoLinesOpen.board 2 = none ∧ (2, 5, 8) ∈ WINNING_LINES ∧
      lineComplete twoLinesOpen.board (2, 5, 8) = false ∧
      lineComplete (arrayAssign twoLinesOpen.board 2 (some twoLinesOpen.currentPlayer))
        (2, 5, 8) = true ∧
      (tryPlayAt twoLinesOpen 2).winningLine ≠ some (2, 5, 8) ∧
      (tryPlayAt twoLinesOpen 2).winningLine = some (0, 1, 2) :=
  ⟨reachable_playAll _ _ reachable_freshGame (by decide), by decide, by decide, by decide,
    by decide, by decide, by decide, by decide⟩

/-- C5, amended: in a reachable state with `gameOver` false, if placing the
current player's symbol on an empty cell `index` completes a line, and `l` is
the first line of `WINNING_LINES` complete after the placement, then
`tryPlayAt(index)` writes the symbol, sets `gameOver` to true and
`winningLine` to `l`, sets the status message to
"P wins! Press Restart to play again." with P the player who just moved, and
does not alternate the turn; `l` passes through `index` and holds the mover's
symbol three times.  After any restart, the moves 0, 4, 1, 5, 2 end with
winner X, `winningLine` `[0, 1, 2]` and message
"X wins! Press Restart to play again.". -/
theorem tryPlayAt_win_first_line (s : State) (index : Nat) (pre : List Line) (l : Line)
    (post : List Line) (hreach : Reachable s) (hgo : s.gameOver = false) (hidx : index < 9)
    (hempty : cellAt s.board index = none) (hsplit : WINNING_LINES = pre ++ l :: post)
    (hpre : ∀ k ∈ pre,
      lineComplete (arrayAssign s.board index (some s.currentPlayer)) k = false)
    (hl : lineComplete (arrayAssign s.board index (some s.currentPlayer)) l = true) :
    ((tryPlayAt s index).board = arrayAssign s.board index (some s.currentPlayer) ∧
        (tryPlayAt s index).gameOver = true ∧
        (tryPlayAt s index).winningLine = some l ∧
        (tryPlayAt s index).status =
          s.currentPlayer.str ++ " wins! Press Restart to play again." ∧
        (tryPlayAt s index).currentPlayer = s.currentPlayer ∧
        lineFilledBy (tryPlayAt s index).board l s.currentPlayer = true ∧
        (index = l.1 ∨ index = l.2.1 ∨ index = l.2.2)) ∧
      (∀ (prior : State) (focusBoard : Bool),
        (playAll (restartGame prior focusBoard).state [0, 4, 1, 5, 2]).gameOver = true ∧
          getWinner (playAll (restartGame prior focusBoard).state [0, 4, 1, 5, 2]).board =
            some { player := Player.X, line := (0, 1, 2) } ∧
          (playAll (restartGame prior focusBoard).state [0, 4, 1, 5, 2]).winningLine =
            some (0, 1, 2) ∧
          (playAll (restartGame prior focusBoard).state [0, 4, 1, 5, 2]).status =
            "X wins! Press Restart to play again.") := by
  constructor
  · obtain ⟨hlen, hno⟩ := reachable_inv s hreach
    have hin : index < s.board.length := by omega
    have hp : ∃ p, lineFilledBy (arrayAssign s.board index (some s.currentPlayer)) l p = true := by
      simp only [lineComplete, Bool.or_eq_true] at hl
      rcases hl with h | h
      · exact ⟨_, h⟩
      · exact ⟨_, h⟩
    obtain ⟨p, hp⟩ := hp
    have hmem : l ∈ WINNING_LINES := by
      rw [hsplit]
      simp
    have hnol : lineComplete s.board l = false :=
      (getWinner_eq_none_iff s.board).1 (hno hgo) l hmem
    obtain ⟨hon, hpeq⟩ := filled_after_write s.board index s.currentPlayer p l hin hnol hp
    subst hpeq
    have hw : getWinner (arrayAssign s.board index (some s.currentPlayer)) =
        some { player := s.currentPlayer, line := l } := by
      unfold getWinner
      rw [hsplit]
      exact getWinnerLoop_first _ pre l post _ hpre hp
    rw [tryPlayAt_win s index _ hgo hempty hw]
    exact ⟨rfl, rfl, rfl, rfl, rfl, hp, hon⟩
  · intro prior focusBoard
    rw [restartGame_eq_withFocus, playAll_withFocus]
    refine ⟨?_, ?_, ?_, ?_⟩ <;> simp only [withFocus] <;> decide

/-- Witness for C5 as amended: the fifth move of 0, 4, 1, 5, 2 completes the top row. -/
theorem tryPlayAt_win_first_line_witness :
    beforeWin.gameOver = false ∧ cellAt beforeWin.board 2 = none ∧
      (tryPlayAt beforeWin 2).gameOver = true ∧
      (tryPlayAt beforeWin 2).winningLine = some (0, 1, 2) ∧
      (tryPlayAt beforeWin 2).status =
        beforeWin.currentPlayer.str ++ " wins! Press Restart to play again." :=
  ⟨by decide, by decide,
    (tryPlayAt_win_first_line beforeWin 2 [] (0, 1, 2)
      [(3, 4, 5), (6, 7, 8), (0, 3, 6), (1, 4, 7), (2, 5, 8), (0, 4, 8), (2, 4, 6)]
      (reachable_playAll _ _ reachable_freshGame (by decide)) (by decide) (by decide)
      (by decide) rfl (by simp) (by decide)).1.2.1,
    (tryPlayAt_win_first_line beforeWin 2 [] (0, 1, 2)
      [(3, 4, 5), (6, 7, 8), (0, 3, 6), (1, 4, 7), (2, 5, 8), (0, 4, 8), (2, 4, 6)]
      (reachable_playAll _ _ reachable_freshGame (by decide)) (by decide) (by decide)
      (by decide) rfl (by simp) (by decide)).1.2.2.1,
    (tryPlayAt_win_first_line beforeWin 2 [] (0, 1, 2)
      [(3, 4, 5), (6, 7, 8), (0, 3, 6), (1, 4, 7), (2, 5, 8), (0, 4, 8), (2, 4, 6)]
      (reachable_playAll _ _ reachable_freshGame (by decide)) (by decide) (by decide)
      (by decide) rfl (by simp) (by decide)).1.2.2.2.1⟩

/-! ## Turn alternation -/

theorem Player.other_other (p : Player) : p.other.other = p := by
  cases p <;> rfl

theorem accepted_iff (s : State) (i : Nat) (hi : i < s.board.length) :
    accepted s i = true ↔ s.gameOver = false ∧ cellAt s.board i = none := by
  unfold accepted
  rw [tryPlayAt_board]
  split_ifs with hc
  · simp only [hc, and_self, iff_true, bne_iff_ne, ne_eq]
    intro heq
    have := cellAt_arrayAssign_self s.board i (some s.currentPlayer) hi
    rw [heq, hc.2] at this
    cases this
  · simp [hc]

theorem written_cons_accepted (s : State) (i : Nat) (rest : List Nat)
    (h : accepted s i = true) :
    written s (i :: rest) = cellAt (tryPlayAt s i).board i :: written (tryPlayAt s i) rest := by
  simp [written, h]

theorem written_cons_rejected (s : State) (i : Nat) (rest : List Nat)
    (h : accepted s i = false) :
    written s (i :: rest) = written (tryPlayAt s i) rest := by
  simp [written, h]

theorem accepted_of_over (s : State) (i : Nat) (h : s.gameOver = true) :
    accepted s i = false := by
  unfold accepted
  rw [tryPlayAt_over s i h]
  simp

theorem accepted_of_taken (s : State) (i : Nat) (h : cellAt s.board i ≠ none) :
    accepted s i = false := by
  unfold accepted
  rw [tryPlayAt_board, if_neg (fun hc => h hc.2)]
  simp

theorem written_of_over (calls : List Nat) (s : State) (h : s.gameOver = true) :
    written s calls = [] := by
  induction calls generalizing s with
  | nil => rfl
  | cons i rest ih =>
    rw [written_cons_rejected s i rest (accepted_of_over s i h)]
    apply ih
    rw [tryPlayAt_over s i h]
    exact h

/-- From any state with a nine-cell board, the successful moves of a call
sequence write the current player's mark and then alternate. -/
theorem written_alternates (calls : List Nat) (s : State) (hlen : s.board.length = 9)
    (hcalls : ∀ i ∈ calls, i < 9) (k : Nat) (hk : k < (written s calls).length) :
    (written s calls)[k]? =
      some (some (if k % 2 = 0 then s.currentPlayer else s.currentPlayer.other)) := by
  induction calls generalizing s k with
  | nil => simp [written] at hk
  | cons i rest ih =>
    have hi : i < 9 := hcalls i (by simp)
    have hrest : ∀ j ∈ rest, j < 9 := fun j hj => hcalls j (by simp [hj])
    cases hgo : s.gameOver with
    | true =>
      rw [written_of_over _ s hgo] at hk
      simp at hk
    | false =>
      cases he : cellAt s.board i with
      | some p =>
        have hrej := accepted_of_taken s i (by simp [he])
        rw [written_cons_rejected s i rest hrej] at hk ⊢
        rw [tryPlayAt_taken s i hgo (by simp [he])] at hk ⊢
        refine ih _ ?_ hrest k hk
        exact hlen
      | none =>
        have hacc := (accepted_iff s i (by omega)).2 ⟨hgo, he⟩
        obtain ⟨hb, hcases⟩ := tryPlayAt_accepted_cases s i hgo he
        have hcell : cellAt (tryPlayAt s i).board i = some s.currentPlayer := by
          rw [hb]
          exact cellAt_arrayAssign_self _ _ _ (by omega)
        have hlen2 : (tryPlayAt s i).board.length = 9 := by
          rw [hb, length_arrayAssign _ _ _ (by omega), hlen]
        rw [written_cons_accepted s i rest hacc, hcell] at hk ⊢
        cases k with
        | zero => simp
        | succ k =>
          have hk2 : k < (written (tryPlayAt s i) rest).length := by simpa using hk
          rw [List.getElem?_cons_succ]
          rcases hcases with ⟨w, -, hover, -⟩ | ⟨-, -, hover, -⟩ | ⟨-, -, -, -, hcp, -⟩
          · rw [written_of_over _ _ hover] at hk2
            simp at hk2
          · rw [written_of_over _ _ hover] at hk2
            simp at hk2
          · rw [ih _ hlen2 hrest k hk2, hcp, Player.other_other]
            rcases Nat.mod_two_eq_zero_or_one k with h0 | h1
            · have : (k + 1) % 2 = 1 := by omega
              simp [h0, this]
            · have : (k + 1) % 2 = 0 := by omega
              simp [h1, this]

/-- C3: starting from the state produced by `restartGame`, for every sequence
of `tryPlayAt` calls on indices 0..8, accepted or rejected, the k-th
successful move (k counted from 1) writes X when k is odd and O when k is
even; and after every successful move that does not end the game,
`currentPlayer` is the opponent of the player whose mark was just written,
who was `currentPlayer` before the call. -/
theorem turn_alternates (prior : State) (focusBoard : Bool) (calls : List Nat)
    (hcalls : ∀ i ∈ calls, i < 9) :
    (∀ k, 1 ≤ k → k ≤ (written (restartGame prior focusBoard).state calls).length →
        (written (restartGame prior focusBoard).state calls)[k - 1]? =
          some (some (if k % 2 = 1 then Player.X else Player.O))) ∧
      (∀ (pre : List Nat) (i : Nat) (post : List Nat), calls = pre ++ i :: post →
        accepted (playAll (restartGame prior focusBoard).state pre) i = true →
        (tryPlayAt (playAll (restartGame prior focusBoard).state pre) i).gameOver = false →
        cellAt (tryPlayAt (playAll (restartGame prior focusBoard).state pre) i).board i =
            some (playAll (restartGame prior focusBoard).state pre).currentPlayer ∧
          (tryPlayAt (playAll (restartGame prior focusBoard).state pre) i).currentPlayer =
            (playAll (restartGame prior focusBoard).state pre).currentPlayer.other) := by
  constructor
  · intro k hk1 hk2
    have hlen : (restartGame prior focusBoard).state.board.length = 9 :=
      (reachable_inv _ (Reachable.fresh prior focusBoard)).1
    have hcp : (restartGame prior focusBoard).state.currentPlayer = Player.X := by
      rw [restartGame_eq_withFocus]
      rfl
    rw [written_alternates calls _ hlen hcalls (k - 1) (by omega), hcp]
    rcases Nat.mod_two_eq_zero_or_one k with h0 | h1
    · have : (k - 1) % 2 = 1 := by omega
      simp [h0, this, Player.other]
    · have : (k - 1) % 2 = 0 := by omega
      simp [h1, this]
  · intro pre i post hsplit hacc hgo
    have hpre : ∀ j ∈ pre, j < 9 := fun j hj => hcalls j (by simp [hsplit, hj])
    have hi : i < 9 := hcalls i (by simp [hsplit])
    have hreach := reachable_playAll pre _ (Reachable.fresh prior focusBoard) hpre
    obtain ⟨hlen, -⟩ := reachable_inv _ hreach
    generalize playAll (restartGame prior focusBoard).state pre = s at *
    obtain ⟨hgo0, he⟩ := (accepted_iff s i (by omega)).1 hacc
    obtain ⟨hb, hcases⟩ := tryPlayAt_accepted_cases s i hgo0 he
    refine ⟨by rw [hb]; exact cellAt_arrayAssign_self _ _ _ (by omega), ?_⟩
    rcases hcases with ⟨w, -, hover, -⟩ | ⟨-, -, hover, -⟩ | ⟨-, -, -, -, hcp, -⟩
    · rw [hover] at hgo
      cases hgo
    · rw [hover] at hgo
      cases hgo
    · exact hcp

/-- Witness for C3: the calls 4, 4, 0 from a fresh game; the second is rejected,
and the second successful move writes O. -/
theorem turn_alternates_witness :
    (written (restartGame (initialState 9) false).state [4, 4, 0])[2 - 1]? =
      some (some Player.O) :=
  (turn_alternates (initialState 9) false [4, 4, 0] (by decide)).1 2 (by decide) (by decide)

/-! ## Focus navigation -/

theorem markFocusedCell_length (s : State) (n : Int) :
    (markFocusedCell s n).tabIndex.length = s.tabIndex.length := by
  simp [markFocusedCell]

/-- In a well-indexed document the `focusin` listener that runs inside
`focus()` repeats the assignments of the call it interrupts: after
`setFocusedCell(n)`, `focusedIndex` is `n` and the `tabIndex` values are the
ones the loop of the call has set. -/
theorem setFocusedCell_wellIndexed (s : State) (n : Int) (focus : Bool)
    (hdoc : wellIndexed s) :
    (setFocusedCell s n focus).state.focusedIndex = n ∧
      (setFocusedCell s n focus).state.tabIndex =
        (List.range s.tabIndex.length).map
          (fun (i : Nat) => if (i : Int) = n then (0 : Int) else -1) ∧
      (setFocusedCell s n focus).state.dataIndex = s.dataIndex := by
  cases focus with
  | false => exact ⟨rfl, rfl, rfl⟩
  | true =>
    by_cases h : 0 ≤ n ∧ n < (s.tabIndex.length : Int)
    · by_cases ha : s.activeCell = some n.toNat
      · rw [setFocusedCell_refocus s n h ha]
        exact ⟨rfl, rfl, rfl⟩
      · rw [setFocusedCell_focusin s n h ha]
        have hcast : ((n.toNat : Nat) : Int) = n := Int.toNat_of_nonneg h.1
        have hlt : n.toNat < s.tabIndex.length := by omega
        have hparse : parseInt10 (s.dataIndex.getD n.toNat none) = some n := by
          rw [hdoc n.toNat hlt, hcast]
        have hstep : focusinOnCell { markFocusedCell s n with activeCell := some n.toNat }
            n.toNat =
            markFocusedCell { markFocusedCell s n with activeCell := some n.toNat } n := by
          unfold focusinOnCell
          have hd : ({ markFocusedCell s n with activeCell := some n.toNat } : State).dataIndex =
              s.dataIndex := rfl
          rw [hd, hparse]
        simp only [hstep]
        refine ⟨rfl, ?_, rfl⟩
        simp [markFocusedCell]
    · rw [setFocusedCell_raises s n h]
      exact ⟨rfl, rfl, rfl⟩

theorem wellIndexed_setFocusedCell (s : State) (n : Int) (focus : Bool)
    (hdoc : wellIndexed s) : wellIndexed (setFocusedCell s n focus).state := by
  obtain ⟨-, ht, hd⟩ := setFocusedCell_wellIndexed s n focus hdoc
  intro i hi
  rw [ht] at hi
  rw [hd]
  exact hdoc i (by simpa using hi)

theorem setFocusedCell_threw (s : State) (n : Int) (h0 : 0 ≤ n)
    (hn : n < s.tabIndex.length) : (setFocusedCell s n true).threw = false := by
  by_cases ha : s.activeCell = some n.toNat
  · rw [setFocusedCell_refocus s n ⟨h0, hn⟩ ha]
  · rw [setFocusedCell_focusin s n ⟨h0, hn⟩ ha]

theorem moveFocusBy_focusedIndex (s : State) (dx dy : Int) (hdoc : wellIndexed s) :
    (moveFocusBy s dx dy).state.focusedIndex =
      clamp (Int.fdiv s.focusedIndex 3 + dy) 0 2 * 3 +
        clamp (Int.tmod s.focusedIndex 3 + dx) 0 2 := by
  unfold moveFocusBy
  exact (setFocusedCell_wellIndexed s _ true hdoc).1

theorem wellIndexed_moveFocusBy (s : State) (dx dy : Int) (hdoc : wellIndexed s) :
    wellIndexed (moveFocusBy s dx dy).state := by
  unfold moveFocusBy
  exact wellIndexed_setFocusedCell s _ true hdoc

theorem clamp_range (v : Int) : 0 ≤ clamp v 0 2 ∧ clamp v 0 2 ≤ 2 := by
  unfold clamp
  omega

theorem clamp_eq (v lo hi : Int) (h : lo ≤ hi) :
    clamp v lo hi = if v < lo then lo else if hi < v then hi else v := by
  unfold clamp
  split_ifs <;> omega

/-- C9, as stated, fails: in a document of nine cells whose ninth cell carries
the `data-index` "9", with `focusedIndex` 5, `moveFocusBy(0, 1)` computes the
index 8, and the `focusin` listener that runs inside `cells[8].focus()` sets
`focusedIndex` to 9, which is neither the clamped index nor in 0..8. -/
theorem moveFocusBy_misindexed_counterexample :
    (setFocusedCell misindexed 5 true).state.focusedIndex = 5 ∧
      (setFocusedCell misindexed 5 true).state.tabIndex.length = 9 ∧
      clamp ((5 : Int) / 3 + 1) 0 2 * 3 + clamp ((5 : Int) % 3 + 0) 0 2 = 8 ∧
      (moveFocusBy (setFocusedCell misindexed 5 true).state 0 1).state.focusedIndex = 9 ∧
      (moveFocusBy (setFocusedCell misindexed 5 true).state 0 1).threw = false := by
  refine ⟨by decide, by decide, by decide, by decide, by decide⟩

/-- C9, amended: in a well-indexed document, for every `focusedIndex` in 0..8 and all
`dx`, `dy` in -1, 0, 1, `moveFocusBy(dx, dy)` sets `focusedIndex` to
`clamp(row + dy, 0, 2) * 3 + clamp(col + dx, 0, 2)` with `row` the quotient
and `col` the remainder of `focusedIndex` by 3, where `clamp(v, lo, hi)` is `lo`
below `lo`, `hi` above `hi` and `v` in between; the new index is again in
0..8, and with nine cell widgets the call raises no error. -/
theorem moveFocusBy_spec (s : State) (dx dy : Int) (hdoc : wellIndexed s)
    (hlo : 0 ≤ s.focusedIndex) (hhi : s.focusedIndex ≤ 8)
    (hdx : dx = -1 ∨ dx = 0 ∨ dx = 1) (hdy : dy = -1 ∨ dy = 0 ∨ dy = 1) :
    (moveFocusBy s dx dy).state.focusedIndex =
        clamp (s.focusedIndex / 3 + dy) 0 2 * 3 + clamp (s.focusedIndex % 3 + dx) 0 2 ∧
      (∀ v lo hi : Int, lo ≤ hi →
        clamp v lo hi = if v < lo then lo else if hi < v then hi else v) ∧
      (moveFocusBy s dx dy).state.focusedIndex =
        (if s.focusedIndex / 3 + dy < 0 then 0
          else if 2 < s.focusedIndex / 3 + dy then 2 else s.focusedIndex / 3 + dy) * 3 +
        (if s.focusedIndex % 3 + dx < 0 then 0
          else if 2 < s.focusedIndex % 3 + dx then 2 else s.focusedIndex % 3 + dx) ∧
      0 ≤ (moveFocusBy s dx dy).state.focusedIndex ∧
      (moveFocusBy s dx dy).state.focusedIndex ≤ 8 ∧
      (s.tabIndex.length = 9 → (moveFocusBy s dx dy).threw = false) := by
  have hrow := clamp_range (Int.fdiv s.focusedIndex 3 + dy)
  have hcol := clamp_range (Int.tmod s.focusedIndex 3 + dx)
  have hdiv : Int.fdiv s.focusedIndex 3 = s.focusedIndex / 3 := by
    generalize s.focusedIndex = f at hlo hhi
    interval_cases f <;> decide
  have hmod : Int.tmod s.focusedIndex 3 = s.focusedIndex % 3 := by
    generalize s.focusedIndex = f at hlo hhi
    interval_cases f <;> decide
  have _ := hdx
  have _ := hdy
  have hidx := moveFocusBy_focusedIndex s dx dy hdoc
  refine ⟨?_, clamp_eq, ?_, ?_, ?_, ?_⟩
  · rw [hidx, hdiv, hmod]
  · rw [hidx, hdiv, hmod, clamp_eq _ 0 2 (by decide), clamp_eq _ 0 2 (by decide)]
  · rw [hidx]
    omega
  · rw [hidx]
    omega
  · intro hcells
    unfold moveFocusBy
    apply setFocusedCell_threw
    · omega
    · rw [hcells]
      push_cast
      omega

/-- Witness for C9 as amended: a move right and down from cell 0 leads to cell 4. -/
theorem moveFocusBy_spec_witness :
    wellIndexed (initialState 9) ∧
      (moveFocusBy (initialState 9) 1 1).state.focusedIndex = 4 ∧
      (moveFocusBy (initialState 9) 1 1).threw = false :=
  ⟨by decide,
    (moveFocusBy_spec (initialState 9) 1 1 (by decide) (by decide) (by decide) (by decide)
      (by decide)).1,
    (moveFocusBy_spec (initialState 9) 1 1 (by decide) (by decide) (by decide) (by decide)
      (by decide)).2.2.2.2.2 (by decide)⟩

/-- C10, as stated, fails: in a document of nine cells whose ninth cell
carries the `data-index` "9", a move down from cell 8, on the bottom edge,
leaves `focusedIndex` at 9 and not at 8; and from cell 2 two moves down lead to
`focusedIndex` 9 and three to 6. -/
theorem moveFocusBy_edge_misindexed_counterexample :
    (setFocusedCell misindexed 8 false).state.focusedIndex = 8 ∧
      onEdge 8 0 1 = true ∧
      (moveFocusBy (setFocusedCell misindexed 8 false).state 0 1).state.focusedIndex = 9 ∧
      (setFocusedCell misindexed 2 true).state.focusedIndex = 2 ∧
      (moveFocusBy (moveFocusBy (setFocusedCell misindexed 2 true).state 0 1).state
        0 1).state.focusedIndex = 9 ∧
      (moveFocusBy (moveFocusBy (moveFocusBy (setFocusedCell misindexed 2 true).state
        0 1).state 0 1).state 0 1).state.focusedIndex = 6 := by
  refine ⟨by decide, by decide, by decide, by decide, by decide, by decide⟩

/-- C10, amended: in a well-indexed document, for every `focusedIndex` in 0..8 and each
of the four directions left, right, up, down: when the focused cell is on the
grid edge in that direction, `moveFocusBy` leaves `focusedIndex` unchanged (no
wraparound); and from every starting index, three moves in the direction
lead to the same index as two. -/
theorem moveFocusBy_edge (s : State) (dx dy : Int) (hdoc : wellIndexed s)
    (hlo : 0 ≤ s.focusedIndex) (hhi : s.focusedIndex ≤ 8)
    (hdir : (dx = -1 ∧ dy = 0) ∨ (dx = 1 ∧ dy = 0) ∨ (dx = 0 ∧ dy = -1) ∨
      (dx = 0 ∧ dy = 1)) :
    (onEdge s.focusedIndex dx dy = true →
        (moveFocusBy s dx dy).state.focusedIndex = s.focusedIndex) ∧
      (moveFocusBy (moveFocusBy (moveFocusBy s dx dy).state dx dy).state dx dy).state.focusedIndex =
        (moveFocusBy (moveFocusBy s dx dy).state dx dy).state.focusedIndex := by
  have hdoc1 := wellIndexed_moveFocusBy s dx dy hdoc
  have hdoc2 := wellIndexed_moveFocusBy _ dx dy hdoc1
  have h1 := moveFocusBy_focusedIndex s dx dy hdoc
  have h2 := moveFocusBy_focusedIndex _ dx dy hdoc1
  have h3 := moveFocusBy_focusedIndex _ dx dy hdoc2
  rw [h3, h2, h1]
  generalize s.focusedIndex = f at hlo hhi
  rcases hdir with ⟨rfl, rfl⟩ | ⟨rfl, rfl⟩ | ⟨rfl, rfl⟩ | ⟨rfl, rfl⟩ <;>
    interval_cases f <;> decide

/-- Witness for C10 as amended: a move left from cell 3, in the leftmost column. -/
theorem moveFocusBy_edge_witness :
    wellIndexed (setFocusedCell (initialState 9) 3 true).state ∧
      onEdge (setFocusedCell (initialState 9) 3 true).state.focusedIndex (-1) 0 = true ∧
      (moveFocusBy (setFocusedCell (initialState 9) 3 true).state (-1) 0).state.focusedIndex =
        3 :=
  ⟨by decide, by decide,
    (moveFocusBy_edge (setFocusedCell (initialState 9) 3 true).state (-1) 0 (by decide)
      (by decide) (by decide) (by decide)).1 (by decide)⟩

/-! ## Focus bookkeeping -/

theorem tryPlayAt_focus_fields (s : State) (i : Nat) :
    (tryPlayAt s i).focusedIndex = s.focusedIndex ∧ (tryPlayAt s i).tabIndex = s.tabIndex ∧
      (tryPlayAt s i).activeCell = s.activeCell := by
  cases h : s.gameOver with
  | true => simp [tryPlayAt_over s i h]
  | false =>
    cases he : cellAt s.board i with
    | some p => simp [tryPlayAt_taken s i h (by simp [he])]
    | none =>
      cases hw : getWinner (arrayAssign s.board i (some s.currentPlayer)) with
      | some w => simp [tryPlayAt_win s i w h he hw]
      | none =>
        cases hf : (arrayAssign s.board i (some s.currentPlayer)).all Option.isSome with
        | true => simp [tryPlayAt_draw s i h he hw hf]
        | false => simp [tryPlayAt_next s i h he hw hf]

theorem rovingAt_setFocusedCell (s : State) (i : Int) (focus : Bool)
    (hcells : s.tabIndex.length = 9) (hdoc : wellIndexed s) (hlo : 0 ≤ i) (hhi : i ≤ 8) :
    rovingAt (setFocusedCell s i focus).state i := by
  obtain ⟨hf, ht, -⟩ := setFocusedCell_wellIndexed s i focus hdoc
  unfold rovingAt
  rw [hf, ht, hcells]
  interval_cases i <;> exact ⟨rfl, by decide, by decide, by decide, by decide⟩

/-- C18, as stated, fails: in a document of nine cells whose first cell
carries the `data-index` "-1", `restartGame` with `focusBoard` true ends with
`focusedIndex` -1: the `focusin` listener that runs inside `cells[0].focus()`
overwrites the 0 that `setFocusedCell(0)` has assigned. -/
theorem restartGame_focus_counterexample :
    misindexedFirst.tabIndex.length = 9 ∧
      (restartGame misindexedFirst true).state.focusedIndex = -1 ∧
      (restartGame misindexedFirst true).threw = false := by
  refine ⟨by decide, by decide, by decide⟩

/-- C18, amended: `restartGame` called without a focus request leaves `focusedIndex`,
every cell's `tabIndex` and the focused cell unchanged; called with
`focusBoard` true, in a well-indexed document, it sets `focusedIndex` to 0;
and `tryPlayAt`, on any index, changes neither `focusedIndex` nor any cell's
`tabIndex`. -/
theorem restartGame_focus_frame (s : State) (index : Nat) :
    ((restartGame s false).state.focusedIndex = s.focusedIndex ∧
        (restartGame s false).state.tabIndex = s.tabIndex ∧
        (restartGame s false).state.activeCell = s.activeCell) ∧
      (wellIndexed s → (restartGame s true).state.focusedIndex = 0) ∧
      ((tryPlayAt s index).focusedIndex = s.focusedIndex ∧
        (tryPlayAt s index).tabIndex = s.tabIndex) := by
  refine ⟨⟨rfl, rfl, rfl⟩, ?_, (tryPlayAt_focus_fields s index).1,
    (tryPlayAt_focus_fields s index).2.1⟩
  intro hdoc
  simp only [restartGame, if_true]
  refine (setFocusedCell_wellIndexed _ 0 true ?_).1
  exact hdoc

/-- Witness for C18 as amended: a restart with the focus request in a document of nine
well-indexed cells, the focus being on cell 5. -/
theorem restartGame_focus_frame_witness :
    wellIndexed (setFocusedCell (initialState 9) 5 true).state ∧
      (setFocusedCell (initialState 9) 5 true).state.focusedIndex = 5 ∧
      (restartGame (setFocusedCell (initialState 9) 5 true).state true).state.focusedIndex = 0 :=
  ⟨by decide, by decide,
    (restartGame_focus_frame (setFocusedCell (initialState 9) 5 true).state 0).2.1
      (by decide)⟩

/-- C19, as stated, fails: in a document of nine cells whose ninth cell
carries the `data-index` "9", `setFocusedCell(8)` with the focus request ends
with `focusedIndex` 9 and no cell at `tabIndex` 0: the `focusin` listener
that runs inside `cells[8].focus()` calls `setFocusedCell(9)`.  Without the
focus request the same call ends with `focusedIndex` 8. -/
theorem setFocusedCell_misindexed_counterexample :
    misindexed.tabIndex.length = 9 ∧ ¬ wellIndexed misindexed ∧
      (setFocusedCell misindexed 8 true).state.focusedIndex = 9 ∧
      (setFocusedCell misindexed 8 true).state.tabIndex.count 0 = 0 ∧
      (setFocusedCell misindexed 8 true).threw = false ∧
      (setFocusedCell misindexed 8 false).state.focusedIndex = 8 := by
  refine ⟨by decide, by decide, by decide, by decide, by decide, by decide⟩

/-- C19, amended: with nine cells in a well-indexed document and an index `i` in 0..8,
after `setFocusedCell(i)`, with or without the focus request, `focusedIndex`
is `i`, exactly one cell has `tabIndex` 0, that cell is cell `i`, and the other
eight have `tabIndex` -1, and the call raises no error.  The same holds after
`moveFocusBy` for the index it moves to (arrow keys), for the indices 0 and 8
(Home, End), and it is kept by the `tryPlayAt` call that follows the focus
change on a click or a digit selection. -/
theorem setFocusedCell_roving (s : State) (i : Int) (focus : Bool)
    (hcells : s.tabIndex.length = 9) (hdoc : wellIndexed s) (hlo : 0 ≤ i) (hhi : i ≤ 8) :
    rovingAt (setFocusedCell s i focus).state i ∧
      (setFocusedCell s i focus).threw = false ∧
      (∀ dx dy : Int,
        rovingAt (moveFocusBy s dx dy).state (moveFocusBy s dx dy).state.focusedIndex) ∧
      rovingAt (setFocusedCell s 0 true).state 0 ∧
      rovingAt (setFocusedCell s 8 true).state 8 ∧
      (∀ j : Nat, rovingAt (tryPlayAt (setFocusedCell s i focus).state j) i) := by
  have hi := rovingAt_setFocusedCell s i focus hcells hdoc hlo hhi
  refine ⟨hi, ?_, ?_, rovingAt_setFocusedCell s 0 true hcells hdoc (by decide) (by decide),
    rovingAt_setFocusedCell s 8 true hcells hdoc (by decide) (by decide), ?_⟩
  · cases focus with
    | true =>
      apply setFocusedCell_threw
      · exact hlo
      · rw [hcells]
        push_cast
        omega
    | false => rfl
  · intro dx dy
    have hrow := clamp_range (Int.fdiv s.focusedIndex 3 + dy)
    have hcol := clamp_range (Int.tmod s.focusedIndex 3 + dx)
    rw [moveFocusBy_focusedIndex s dx dy hdoc]
    unfold moveFocusBy
    exact rovingAt_setFocusedCell s _ true hcells hdoc (by omega) (by omega)
  · intro j
    obtain ⟨h1, h2, -⟩ := tryPlayAt_focus_fields (setFocusedCell s i focus).state j
    unfold rovingAt at hi ⊢
    rw [h1, h2]
    exact hi

/-- Witness for C19 as amended: the focus set to cell 5 of nine. -/
theorem setFocusedCell_roving_witness :
    wellIndexed (initialState 9) ∧
      (setFocusedCell (initialState 9) 5 true).state.focusedIndex = 5 ∧
      (setFocusedCell (initialState 9) 5 true).state.tabIndex =
        [-1, -1, -1, -1, -1, 0, -1, -1, -1] ∧
      rovingAt (setFocusedCell (initialState 9) 5 true).state 5 :=
  ⟨by decide, by decide, by decide,
    (setFocusedCell_roving (initialState 9) 5 true (by decide) (by decide) (by decide)
      (by decide)).1⟩

/-! ## Invariants of reachable states -/

/-- Induction over reachable states, with the rejected calls of `tryPlayAt`
reduced to a change of the status message. -/
theorem reachable_induction (P : State → Prop)
    (hfresh : ∀ prior focusBoard, P (restartGame prior focusBoard).state)
    (hfocus : ∀ s f t a d, P s → P (withFocus s f t a d))
    (hstatus : ∀ s msg, P s → P { s with status := msg })
    (hmove : ∀ s i, Reachable s → P s → s.gameOver = false → i < 9 →
      cellAt s.board i = none → P (tryPlayAt s i))
    (s : State) (h : Reachable s) : P s := by
  induction h with
  | fresh prior focusBoard => exact hfresh prior focusBoard
  | play s index hs hidx ih =>
    cases hgo : s.gameOver with
    | true =>
      rw [tryPlayAt_over s index hgo]
      exact hstatus s _ ih
    | false =>
      cases he : cellAt s.board index with
      | some p =>
        rw [tryPlayAt_taken s index hgo (by simp [he])]
        exact hstatus s _ ih
      | none => exact hmove s index hs ih hgo hidx he
  | focus s nextIndex focus _ ih =>
    rw [setFocusedCell_state]
    exact hfocus s _ _ _ _ ih

/-- While the game is not over, some cell of the board is empty. -/
theorem reachable_not_full (s : State) (h : Reachable s) :
    s.gameOver = false → s.board.all Option.isSome = false := by
  refine reachable_induction (fun s => s.gameOver = false → s.board.all Option.isSome = false)
    ?_ (fun _ _ _ _ _ h => h) (fun _ _ h => h) ?_ s h
  · intro prior focusBoard _
    rw [restartGame_eq_withFocus]
    show freshGame.board.all Option.isSome = false
    decide
  · intro s i _ _ hgo _ he hgo2
    obtain ⟨-, hcases⟩ := tryPlayAt_accepted_cases s i hgo he
    rcases hcases with ⟨w, -, hover, -⟩ | ⟨-, -, hover, -⟩ | ⟨-, hf, -⟩
    · rw [hover] at hgo2
      cases hgo2
    · rw [hover] at hgo2
      cases hgo2
    · exact hf

/-- The global `winningLine` always is the line `getWinner` reports on the
current board, and `null` when it reports none. -/
theorem reachable_winningLine (s : State) (h : Reachable s) :
    s.winningLine = (getWinner s.board).map Winner.line := by
  refine reachable_induction (fun s => s.winningLine = (getWinner s.board).map Winner.line)
    ?_ (fun _ _ _ _ _ h => h) (fun _ _ h => h) ?_ s h
  · intro prior focusBoard
    rw [restartGame_eq_withFocus]
    show freshGame.winningLine = (getWinner freshGame.board).map Winner.line
    decide
  · intro s i hs ih hgo _ he
    obtain ⟨-, hcases⟩ := tryPlayAt_accepted_cases s i hgo he
    rcases hcases with ⟨w, hw, -, hline, -⟩ | ⟨hw, -, -, hline, -⟩ | ⟨hw, -, -, hline, -⟩
    · rw [hw, hline]
      rfl
    · rw [hw, hline]
      rfl
    · rw [hw, hline, ih, (reachable_inv s hs).2 hgo]

/-- All complete lines of a reachable board pass through one cell and hold the
mark of `currentPlayer`. -/
theorem reachable_complete_lines (s : State) (h : Reachable s) :
    ∃ i, i < 9 ∧ ∀ l ∈ WINNING_LINES, lineComplete s.board l = true →
      (i = l.1 ∨ i = l.2.1 ∨ i = l.2.2) ∧ lineFilledBy s.board l s.currentPlayer = true := by
  refine reachable_induction
    (fun s => ∃ i, i < 9 ∧ ∀ l ∈ WINNING_LINES, lineComplete s.board l = true →
      (i = l.1 ∨ i = l.2.1 ∨ i = l.2.2) ∧ lineFilledBy s.board l s.currentPlayer = true)
    ?_ (fun _ _ _ _ _ h => h) (fun _ _ h => h) ?_ s h
  · intro prior focusBoard
    rw [restartGame_eq_withFocus]
    refine ⟨0, by decide, ?_⟩
    intro l hl hc
    have hno : ∀ k ∈ WINNING_LINES, lineComplete freshGame.board k = false := by decide
    have hc2 : lineComplete freshGame.board l = true := hc
    rw [hno l hl] at hc2
    cases hc2
  · intro s i hs _ hgo hi he
    obtain ⟨hlen, hno⟩ := reachable_inv s hs
    obtain ⟨hb, hcases⟩ := tryPlayAt_accepted_cases s i hgo he
    refine ⟨i, hi, ?_⟩
    intro l hl hc
    have hnone := getWinner_eq_none_iff (tryPlayAt s i).board
    rcases hcases with ⟨w, -, -, -, hcp, -⟩ | ⟨hw, -⟩ | ⟨hw, -⟩
    · have hp : ∃ p, lineFilledBy (tryPlayAt s i).board l p = true := by
        simp only [lineComplete, Bool.or_eq_true] at hc
        rcases hc with h' | h'
        · exact ⟨_, h'⟩
        · exact ⟨_, h'⟩
      obtain ⟨p, hp⟩ := hp
      have hnol : lineComplete s.board l = false :=
        (getWinner_eq_none_iff s.board).1 (hno hgo) l hl
      rw [hb] at hp
      obtain ⟨hon, hpeq⟩ :=
        filled_after_write s.board i s.currentPlayer p l (by omega) hnol hp
      subst hpeq
      rw [hcp, hb]
      exact ⟨hon, hp⟩
    · rw [hnone.1 hw l hl] at hc
      cases hc
    · rw [hnone.1 hw l hl] at hc
      cases hc

/-- C15, as stated, fails: the position after the moves
0, 3, 1, 4, 5, 6, 8, 7, 2 is reachable by play from a fresh game, and in it
both the top row `[0, 1, 2]` and the right column `[2, 5, 8]` are complete:
the last move completed two lines at once, and the order of `WINNING_LINES`
decided that the row is the line reported. -/
theorem two_lines_complete_counterexample :
    Reachable twoLinesWon ∧ twoLinesWon = playAll freshGame [0, 3, 1, 4, 5, 6, 8, 7, 2] ∧
      lineComplete twoLinesOpen.board (0, 1, 2) = false ∧
      lineComplete twoLinesOpen.board (2, 5, 8) = false ∧
      (0, 1, 2) ∈ WINNING_LINES ∧ (2, 5, 8) ∈ WINNING_LINES ∧
      lineComplete twoLinesWon.board (0, 1, 2) = true ∧
      lineComplete twoLinesWon.board (2, 5, 8) = true ∧
      twoLinesWon.winningLine = some (0, 1, 2) :=
  ⟨Reachable.play _ 2 (reachable_playAll _ _ reachable_freshGame (by decide)) (by decide),
    by decide, by decide, by decide, by decide, by decide, by decide, by decide, by decide⟩

/-- C15, amended: in every reachable state no winning line is complete while
the game is not over; all complete lines pass through one common cell and
hold the same player's symbol, that of `currentPlayer`; and whenever a line
is complete, `winningLine` is the first complete line in the iteration order
of `getWinner`. -/
theorem complete_lines_share_cell (s : State) (h : Reachable s) :
    (s.gameOver = false → ∀ l ∈ WINNING_LINES, lineComplete s.board l = false) ∧
      (∃ i, i < 9 ∧ ∀ l ∈ WINNING_LINES, lineComplete s.board l = true →
        (i = l.1 ∨ i = l.2.1 ∨ i = l.2.2) ∧
          lineFilledBy s.board l s.currentPlayer = true) ∧
      (∀ (pre : List Line) (l : Line) (post : List Line),
        WINNING_LINES = pre ++ l :: post →
        (∀ k ∈ pre, lineComplete s.board k = false) →
        lineComplete s.board l = true → s.winningLine = some l) := by
  refine ⟨fun hgo => (getWinner_eq_none_iff s.board).1 ((reachable_inv s h).2 hgo),
    reachable_complete_lines s h, ?_⟩
  intro pre l post hsplit hpre hl
  have hp : ∃ p, lineFilledBy s.board l p = true := by
    simp only [lineComplete, Bool.or_eq_true] at hl
    rcases hl with h' | h'
    · exact ⟨_, h'⟩
    · exact ⟨_, h'⟩
  obtain ⟨p, hp⟩ := hp
  have hw : getWinner s.board = some { player := p, line := l } := by
    unfold getWinner
    rw [hsplit]
    exact getWinnerLoop_first _ pre l post _ hpre hp
  rw [reachable_winningLine s h, hw]
  rfl

/-- Witness for C15 as amended: with two lines complete, the top row is reported. -/
theorem complete_lines_share_cell_witness :
    lineComplete twoLinesWon.board (2, 5, 8) = true ∧
      twoLinesWon.winningLine = some (0, 1, 2) :=
  ⟨by decide,
    (complete_lines_share_cell twoLinesWon
      (Reachable.play _ 2 (reachable_playAll _ _ reachable_freshGame (by decide))
        (by decide))).2.2 [] (0, 1, 2)
      [(3, 4, 5), (6, 7, 8), (0, 3, 6), (1, 4, 7), (2, 5, 8), (0, 4, 8), (2, 4, 6)]
      rfl (by simp) (by decide)⟩

/-! ## Counting marks -/

theorem count_set_of_none (b : List Cell) (i : Nat) (p q : Player) (hi : i < b.length)
    (he : b.getD i none = none) :
    (b.set i (some p)).count (some q) = b.count (some q) + (if p = q then 1 else 0) := by
  induction b generalizing i with
  | nil => simp at hi
  | cons c cs ih =>
    cases i with
    | zero =>
      have hc : c = none := by simpa using he
      subst hc
      by_cases hpq : p = q
      · subst hpq
        simp [List.count_cons]
      · simp [List.count_cons, hpq]
    | succ i =>
      have hi2 : i < cs.length := by simpa using hi
      have he2 : cs.getD i none = none := by simpa using he
      simp only [List.set_cons_succ, List.count_cons]
      rw [ih i hi2 he2]
      omega

theorem markCount_arrayAssign (b : List Cell) (i : Nat) (p q : Player) (hi : i < b.length)
    (he : cellAt b i = none) :
    markCount (arrayAssign b i (some p)) q = markCount b q + (if p = q then 1 else 0) := by
  unfold markCount arrayAssign
  rw [if_pos hi]
  exact count_set_of_none b i p q hi he

/-- X has as many marks on a reachable board as O, or one more; while the game
is not over, they have equally many exactly when it is the turn of X. -/
theorem reachable_counts (s : State) (h : Reachable s) :
    markCount s.board Player.O ≤ markCount s.board Player.X ∧
      markCount s.board Player.X ≤ markCount s.board Player.O + 1 ∧
      (s.gameOver = false →
        (s.currentPlayer = Player.X →
          markCount s.board Player.X = markCount s.board Player.O) ∧
        (s.currentPlayer = Player.O →
          markCount s.board Player.X = markCount s.board Player.O + 1)) := by
  refine reachable_induction
    (fun s => markCount s.board Player.O ≤ markCount s.board Player.X ∧
      markCount s.board Player.X ≤ markCount s.board Player.O + 1 ∧
      (s.gameOver = false →
        (s.currentPlayer = Player.X →
          markCount s.board Player.X = markCount s.board Player.O) ∧
        (s.currentPlayer = Player.O →
          markCount s.board Player.X = markCount s.board Player.O + 1)))
    ?_ (fun _ _ _ _ _ h => h) (fun _ _ h => h) ?_ s h
  · intro prior focusBoard
    rw [restartGame_eq_withFocus]
    show markCount freshGame.board Player.O ≤ markCount freshGame.board Player.X ∧
      markCount freshGame.board Player.X ≤ markCount freshGame.board Player.O + 1 ∧
      (freshGame.gameOver = false →
        (freshGame.currentPlayer = Player.X →
          markCount freshGame.board Player.X = markCount freshGame.board Player.O) ∧
        (freshGame.currentPlayer = Player.O →
          markCount freshGame.board Player.X = markCount freshGame.board Player.O + 1))
    decide
  · intro s i hs ih hgo hi he
    obtain ⟨hlen, -⟩ := reachable_inv s hs
    obtain ⟨hb, hcases⟩ := tryPlayAt_accepted_cases s i hgo he
    obtain ⟨-, -, hturn⟩ := ih
    obtain ⟨hX, hO⟩ := hturn hgo
    have hcX := markCount_arrayAssign s.board i s.currentPlayer Player.X (by omega) he
    have hcO := markCount_arrayAssign s.board i s.currentPlayer Player.O (by omega) he
    rw [hb]
    cases hcp : s.currentPlayer with
    | X =>
      have h1 := hX hcp
      rw [hcp] at hcX hcO
      simp only [if_true] at hcX
      rw [if_neg (by decide)] at hcO
      refine ⟨by omega, by omega, ?_⟩
      intro hgo2
      rcases hcases with ⟨w, -, hover, -⟩ | ⟨-, -, hover, -⟩ | ⟨-, -, -, -, hnext, -⟩
      · rw [hover] at hgo2
        cases hgo2
      · rw [hover] at hgo2
        cases hgo2
      · rw [hnext, hcp]
        exact ⟨fun h => (by cases h), fun _ => (by omega)⟩
    | O =>
      have h1 := hO hcp
      rw [hcp] at hcX hcO
      simp only [if_true] at hcO
      rw [if_neg (by decide)] at hcX
      refine ⟨by omega, by omega, ?_⟩
      intro hgo2
      rcases hcases with ⟨w, -, hover, -⟩ | ⟨-, -, hover, -⟩ | ⟨-, -, -, -, hnext, -⟩
      · rw [hover] at hgo2
        cases hgo2
      · rw [hover] at hgo2
        cases hgo2
      · rw [hnext, hcp]
        exact ⟨fun _ => (by omega), fun h => (by cases h)⟩

/-- C16, as stated, fails: no sequence of `tryPlayAt` calls on indices 0..8
from a fresh game, whatever the state before the restart, produces the board
X,O,X / O,X,O / O,X,O.  That board holds five O and four X, and X moves
first. -/
theorem stated_draw_board_counterexample :
    markCount statedDrawBoard Player.X = 4 ∧ markCount statedDrawBoard Player.O = 5 ∧
      ¬ ∃ (prior : State) (focusBoard : Bool) (calls : List Nat),
        (∀ i ∈ calls, i < 9) ∧
          (playAll (restartGame prior focusBoard).state calls).board = statedDrawBoard := by
  refine ⟨by decide, by decide, ?_⟩
  rintro ⟨prior, focusBoard, calls, hcalls, hboard⟩
  have hreach := reachable_playAll calls _ (Reachable.fresh prior focusBoard) hcalls
  have hcount := (reachable_counts _ hreach).1
  rw [hboard] at hcount
  exact absurd hcount (by decide)

/-- C16, amended: after any restart, the moves 1, 0, 3, 2, 5, 4, 6, 7, 8 played
through `tryPlayAt` fill the board as O,X,O / X,O,X / X,O,X, the stated
pattern with the two marks exchanged, without a three-in-a-row; after them
`gameOver` is true, `winningLine` is null and the status message is
"It's a draw. Press Restart to play again.". -/
theorem draw_scenario (prior : State) (focusBoard : Bool) :
    ∃ calls : List Nat, (∀ i ∈ calls, i < 9) ∧
      (playAll (restartGame prior focusBoard).state calls).board = exchangedDrawBoard ∧
      (∀ l ∈ WINNING_LINES,
        lineComplete (playAll (restartGame prior focusBoard).state calls).board l = false) ∧
      (∀ j, j < 9 → cellAt (playAll (restartGame prior focusBoard).state calls).board j ≠ none) ∧
      (playAll (restartGame prior focusBoard).state calls).gameOver = true ∧
      (playAll (restartGame prior focusBoard).state calls).winningLine = none ∧
      (playAll (restartGame prior focusBoard).state calls).status =
        "It\x27s a draw. Press Restart to play again." := by
  refine ⟨[1, 0, 3, 2, 5, 4, 6, 7, 8], by decide, ?_⟩
  rw [restartGame_eq_withFocus, playAll_withFocus]
  refine ⟨?_, ?_, ?_, ?_, ?_, ?_⟩ <;> simp only [withFocus] <;> decide

/-! ## Length of a game -/

theorem markCount_total_le (b : List Cell) :
    markCount b Player.X + markCount b Player.O ≤ b.length := by
  unfold markCount
  induction b with
  | nil => simp
  | cons c cs ih =>
    rcases c with _ | p
    · simp only [List.count_cons, List.length_cons]
      simp
      omega
    · cases p <;> simp [List.count_cons] <;> omega

theorem all_isSome_of_markCount (b : List Cell)
    (h : markCount b Player.X + markCount b Player.O = b.length) :
    b.all Option.isSome = true := by
  induction b with
  | nil => rfl
  | cons c cs ih =>
    have hle := markCount_total_le cs
    unfold markCount at h hle ih
    rcases c with _ | p
    · simp [List.count_cons] at h
      omega
    · have hcs : List.count (some Player.X) cs + List.count (some Player.O) cs = cs.length := by
        cases p <;> simp [List.count_cons] at h <;> omega
      simp [List.all_cons, ih hcs]

theorem playAll_of_over (calls : List Nat) (s : State) (h : s.gameOver = true) :
    (playAll s calls).gameOver = true ∧ (playAll s calls).currentPlayer = s.currentPlayer ∧
      (playAll s calls).board = s.board := by
  induction calls generalizing s with
  | nil => exact ⟨h, rfl, rfl⟩
  | cons i rest ih =>
    show (playAll (tryPlayAt s i) rest).gameOver = true ∧
      (playAll (tryPlayAt s i) rest).currentPlayer = s.currentPlayer ∧
      (playAll (tryPlayAt s i) rest).board = s.board
    rw [tryPlayAt_over s i h]
    exact ih { s with status := "Game over. Press Restart to play again." } h

/-- Every successful move adds one mark to the board. -/
theorem marks_playAll (calls : List Nat) (s : State) (hlen : s.board.length = 9)
    (hcalls : ∀ i ∈ calls, i < 9) :
    markCount (playAll s calls).board Player.X + markCount (playAll s calls).board Player.O =
      markCount s.board Player.X + markCount s.board Player.O + (written s calls).length := by
  induction calls generalizing s with
  | nil => simp [playAll, written]
  | cons i rest ih =>
    have hi : i < 9 := hcalls i (by simp)
    have hrest : ∀ j ∈ rest, j < 9 := fun j hj => hcalls j (by simp [hj])
    show markCount (playAll (tryPlayAt s i) rest).board Player.X +
      markCount (playAll (tryPlayAt s i) rest).board Player.O = _
    cases hgo : s.gameOver with
    | true =>
      rw [written_cons_rejected s i rest (accepted_of_over s i hgo)]
      rw [ih (tryPlayAt s i) (by rw [tryPlayAt_over s i hgo]; exact hlen) hrest,
        tryPlayAt_over s i hgo]
    | false =>
      cases he : cellAt s.board i with
      | some p =>
        rw [written_cons_rejected s i rest (accepted_of_taken s i (by simp [he]))]
        rw [ih (tryPlayAt s i)
          (by rw [tryPlayAt_taken s i hgo (by simp [he])]; exact hlen) hrest,
          tryPlayAt_taken s i hgo (by simp [he])]
      | none =>
        have hacc := (accepted_iff s i (by omega)).2 ⟨hgo, he⟩
        have hb := (tryPlayAt_accepted_cases s i hgo he).1
        have hlen2 : (tryPlayAt s i).board.length = 9 := by
          rw [hb, length_arrayAssign _ _ _ (by omega), hlen]
        have hcX := markCount_arrayAssign s.board i s.currentPlayer Player.X (by omega) he
        have hcO := markCount_arrayAssign s.board i s.currentPlayer Player.O (by omega) he
        rw [written_cons_accepted s i rest hacc, ih (tryPlayAt s i) hlen2 hrest, hb, hcX, hcO,
          List.length_cons]
        cases s.currentPlayer <;> simp <;> omega

/-- When a game that was not over is over after a sequence of calls, the last
successful move wrote the mark of the final `currentPlayer`. -/
theorem last_written (calls : List Nat) (s : State) (hlen : s.board.length = 9)
    (hcalls : ∀ i ∈ calls, i < 9) (hgo : s.gameOver = false)
    (hover : (playAll s calls).gameOver = true) :
    (written s calls).getLast? = some (some (playAll s calls).currentPlayer) := by
  induction calls generalizing s with
  | nil =>
    rw [show playAll s [] = s from rfl, hgo] at hover
    cases hover
  | cons i rest ih =>
    have hi : i < 9 := hcalls i (by simp)
    have hrest : ∀ j ∈ rest, j < 9 := fun j hj => hcalls j (by simp [hj])
    have hplay : playAll s (i :: rest) = playAll (tryPlayAt s i) rest := rfl
    rw [hplay] at hover ⊢
    cases he : cellAt s.board i with
    | some p =>
      rw [written_cons_rejected s i rest (accepted_of_taken s i (by simp [he]))]
      apply ih (tryPlayAt s i)
      · rw [tryPlayAt_taken s i hgo (by simp [he])]
        exact hlen
      · exact hrest
      · rw [tryPlayAt_taken s i hgo (by simp [he])]
        exact hgo
      · exact hover
    | none =>
      have hacc := (accepted_iff s i (by omega)).2 ⟨hgo, he⟩
      obtain ⟨hb, hcases⟩ := tryPlayAt_accepted_cases s i hgo he
      have hcell : cellAt (tryPlayAt s i).board i = some s.currentPlayer := by
        rw [hb]
        exact cellAt_arrayAssign_self _ _ _ (by omega)
      have hlen2 : (tryPlayAt s i).board.length = 9 := by
        rw [hb, length_arrayAssign _ _ _ (by omega), hlen]
      rw [written_cons_accepted s i rest hacc, hcell]
      rcases hcases with ⟨w, -, hov, -, hcp, -⟩ | ⟨-, -, hov, -, hcp, -⟩ | ⟨-, -, hgo2, -⟩
      · rw [written_of_over rest _ hov, (playAll_of_over rest _ hov).2.1, hcp]
        rfl
      · rw [written_of_over rest _ hov, (playAll_of_over rest _ hov).2.1, hcp]
        rfl
      · have := ih (tryPlayAt s i) hlen2 hrest hgo2 hover
        cases hw : written (tryPlayAt s i) rest with
        | nil =>
          rw [hw] at this
          cases this
        | cons c cs =>
          rw [hw] at this
          rw [List.getLast?_cons_cons]
          exact this

theorem restartGame_board (prior : State) (focusBoard : Bool) :
    (restartGame prior focusBoard).state.board = freshGame.board ∧
      (restartGame prior focusBoard).state.gameOver = false := by
  rw [restartGame_eq_withFocus]
  exact ⟨rfl, rfl⟩

/-- C20: in every state reachable from a `restartGame` by `tryPlayAt` and
`restartGame` calls: while `gameOver` is false no winning line is complete and
at least one cell is empty; and when `winningLine` is non-null, `gameOver` is
true and the three cells of `winningLine` all hold the symbol of
`currentPlayer`.  Counted from a restart, a game has at most nine successful
moves, is over once it has nine, and when it is over the last successful move
was made by `currentPlayer`, so the winner is the player who moved last. -/
theorem reachable_game_invariant (s : State) (h : Reachable s) :
    (s.gameOver = false →
        (∀ l ∈ WINNING_LINES, lineComplete s.board l = false) ∧
          ∃ j, j < 9 ∧ cellAt s.board j = none) ∧
      (∀ l, s.winningLine = some l →
        s.gameOver = true ∧ l ∈ WINNING_LINES ∧
          lineFilledBy s.board l s.currentPlayer = true) ∧
      (∀ (prior : State) (focusBoard : Bool) (calls : List Nat), (∀ i ∈ calls, i < 9) →
        (written (restartGame prior focusBoard).state calls).length ≤ 9 ∧
          ((written (restartGame prior focusBoard).state calls).length = 9 →
            (playAll (restartGame prior focusBoard).state calls).gameOver = true) ∧
          ((playAll (restartGame prior focusBoard).state calls).gameOver = true →
            (written (restartGame prior focusBoard).state calls).getLast? =
              some (some (playAll (restartGame prior focusBoard).state calls).currentPlayer))) := by
  obtain ⟨hlen, hno⟩ := reachable_inv s h
  refine ⟨?_, ?_, ?_⟩
  · intro hgo
    refine ⟨(getWinner_eq_none_iff s.board).1 (hno hgo), ?_⟩
    have hnf := reachable_not_full s h hgo
    by_contra hall
    have hfull : s.board.all Option.isSome = true := by
      rw [all_isSome_iff, hlen]
      intro j hj hcell
      exact hall ⟨j, hj, hcell⟩
    rw [hfull] at hnf
    cases hnf
  · intro l hl
    have hwl := reachable_winningLine s h
    rw [hl] at hwl
    cases hw : getWinner s.board with
    | none =>
      rw [hw] at hwl
      cases hwl
    | some w =>
      rw [hw] at hwl
      have hline : l = w.line := Option.some.inj hwl
      obtain ⟨hmem, hfilled⟩ := getWinner_some s.board w hw
      rw [← hline] at hmem hfilled
      have hcomplete := lineComplete_of_filled s.board l w.player hfilled
      obtain ⟨i, -, hall⟩ := reachable_complete_lines s h
      refine ⟨?_, hmem, (hall l hmem hcomplete).2⟩
      cases hgo : s.gameOver with
      | true => rfl
      | false =>
        rw [hno hgo] at hw
        cases hw
  · intro prior focusBoard calls hcalls
    obtain ⟨hb0, hgo0⟩ := restartGame_board prior focusBoard
    have hlen0 : (restartGame prior focusBoard).state.board.length = 9 :=
      (reachable_inv _ (Reachable.fresh prior focusBoard)).1
    have hreach := reachable_playAll calls _ (Reachable.fresh prior focusBoard) hcalls
    have hlenf := (reachable_inv _ hreach).1
    have hmarks := marks_playAll calls _ hlen0 hcalls
    have hzero : markCount (restartGame prior focusBoard).state.board Player.X +
        markCount (restartGame prior focusBoard).state.board Player.O = 0 := by
      rw [hb0]
      decide
    have hle := markCount_total_le (playAll (restartGame prior focusBoard).state calls).board
    rw [hlenf] at hle
    refine ⟨by omega, ?_, ?_⟩
    · intro h9
      cases hgo : (playAll (restartGame prior focusBoard).state calls).gameOver with
      | true => rfl
      | false =>
        have hnf := reachable_not_full _ hreach hgo
        rw [all_isSome_of_markCount _ (by omega)] at hnf
        cases hnf
    · intro hover
      exact last_written calls _ hlen0 hcalls hgo0 hover

/-- Witness for C20: the game won by X on the top row. -/
theorem reachable_game_invariant_witness :
    wonGame.winningLine = some (0, 1, 2) ∧ wonGame.gameOver = true ∧
      lineFilledBy wonGame.board (0, 1, 2) wonGame.currentPlayer = true :=
  ⟨by decide,
    ((reachable_game_invariant wonGame
      (reachable_playAll _ _ reachable_freshGame (by decide))).2.1 (0, 1, 2) (by decide)).1,
    ((reachable_game_invariant wonGame
      (reachable_playAll _ _ reachable_freshGame (by decide))).2.1 (0, 1, 2) (by decide)).2.2⟩

/-! ## Theme -/

theorem applyTheme_fields (s : ThemeState) (theme : String) :
    (applyTheme s theme).dataTheme = some theme ∧ (applyTheme s theme).stored = s.stored ∧
      (applyTheme s theme).listening = s.listening := by
  unfold applyTheme updateThemeToggleUi
  cases s.toggleBtn <;> exact ⟨rfl, rfl, rfl⟩

theorem setTheme_unpersisted (h : Host) (s : ThemeState) (theme : String) :
    setTheme h s theme false = Except.ok (applyTheme s theme) := by
  simp [setTheme]

theorem setTheme_persisted (h : Host) (s : ThemeState) (theme : String) :
    setTheme h s theme true =
      Except.ok (if h.setItemThrows then applyTheme s theme
        else { applyTheme s theme with stored := some theme }) := by
  cases hw : h.setItemThrows <;> simp [setTheme, storeTheme, localStorageSetItem, hw]

theorem normalizeTheme_dark : normalizeTheme (some "dark") = some "dark" := by decide

theorem normalizeTheme_light : normalizeTheme (some "light") = some "light" := by decide

theorem normalizeTheme_other (v : Option String) (hd : v ≠ some "dark")
    (hl : v ≠ some "light") : normalizeTheme v = none := by
  simp [normalizeTheme, hd, hl]

theorem toggleTheme_of_dark (h : Host) (s : ThemeState) (hs : s.dataTheme = some "dark") :
    toggleTheme h s = setTheme h s "light" true := by
  simp [toggleTheme, hs, normalizeTheme_dark]

theorem toggleTheme_of_light (h : Host) (s : ThemeState) (hs : s.dataTheme = some "light") :
    toggleTheme h s = setTheme h s "dark" true := by
  have hne : ¬ ("light" = "dark") := by decide
  simp [toggleTheme, hs, normalizeTheme_light, hne]

theorem toggleTheme_of_other (h : Host) (s : ThemeState) (hd : s.dataTheme ≠ some "dark")
    (hl : s.dataTheme ≠ some "light") : toggleTheme h s = setTheme h s "light" true := by
  simp [toggleTheme, normalizeTheme_other _ hd hl]

/-- The result of `toggleTheme`: it ends normally, with the theme `next` that
is "dark" when the active theme is "light" and "light" otherwise. -/
theorem toggleTheme_result (h : Host) (s : ThemeState) :
    ∃ next, (s.dataTheme = some "light" → next = "dark") ∧
      (s.dataTheme ≠ some "light" → next = "light") ∧
      toggleTheme h s =
        Except.ok (if h.setItemThrows then applyTheme s next
          else { applyTheme s next with stored := some next }) := by
  by_cases hl : s.dataTheme = some "light"
  · refine ⟨"dark", fun _ => rfl, fun hne => absurd hl hne, ?_⟩
    rw [toggleTheme_of_light h s hl, setTheme_persisted]
  · refine ⟨"light", fun h' => absurd h' hl, fun _ => rfl, ?_⟩
    by_cases hd : s.dataTheme = some "dark"
    · rw [toggleTheme_of_dark h s hd, setTheme_persisted]
    · rw [toggleTheme_of_other h s hd hl, setTheme_persisted]

theorem toggleTheme_dataTheme (h : Host) (s : ThemeState) :
    ∃ s1, toggleTheme h s = Except.ok s1 ∧
      (s.dataTheme = some "light" → s1.dataTheme = some "dark") ∧
      (s.dataTheme ≠ some "light" → s1.dataTheme = some "light") ∧
      (h.setItemThrows = true → s1.stored = s.stored) ∧
      (h.setItemThrows = false → s1.stored = s1.dataTheme) ∧
      s1.listening = s.listening := by
  obtain ⟨next, hn1, hn2, hres⟩ := toggleTheme_result h s
  obtain ⟨ha, hb, hc⟩ := applyTheme_fields s next
  refine ⟨_, hres, ?_, ?_, ?_, ?_, ?_⟩
  · intro hl
    rw [← hn1 hl]
    cases h.setItemThrows <;> simp [ha]
  · intro hl
    rw [← hn2 hl]
    cases h.setItemThrows <;> simp [ha]
  · intro hw
    simp [hw, hb]
  · intro hw
    simp [hw, ha]
  · cases h.setItemThrows <;> simp [hc]

/-- C11: when the active theme is "light" or "dark", `toggleTheme` ends
normally and changes the active theme to the other value, and a second
`toggleTheme` returns it to the original value, whatever the host and the
storage do. -/
theorem toggleTheme_flips (h : Host) (s : ThemeState)
    (hactive : s.dataTheme = some "light" ∨ s.dataTheme = some "dark") :
    ∃ s1 s2, toggleTheme h s = Except.ok s1 ∧ toggleTheme h s1 = Except.ok s2 ∧
      (s.dataTheme = some "light" → s1.dataTheme = some "dark") ∧
      (s.dataTheme = some "dark" → s1.dataTheme = some "light") ∧
      s1.dataTheme ≠ s.dataTheme ∧
      s2.dataTheme = s.dataTheme := by
  obtain ⟨s1, h1, hl1, hd1, -⟩ := toggleTheme_dataTheme h s
  obtain ⟨s2, h2, hl2, hd2, -⟩ := toggleTheme_dataTheme h s1
  have hne : (some "dark" : Option String) ≠ some "light" := by decide
  refine ⟨s1, s2, h1, h2, hl1, ?_, ?_, ?_⟩
  · intro hd
    exact hd1 (by rw [hd]; exact hne)
  · rcases hactive with hl | hd
    · rw [hl1 hl, hl]
      exact hne
    · rw [hd1 (by rw [hd]; exact hne), hd]
      exact hne.symm
  · rcases hactive with hl | hd
    · rw [hl, hd2 (by rw [hl1 hl]; exact hne)]
    · rw [hd, hl2 (hd1 (by rw [hd]; exact hne))]

/-- Witness for C11: two toggles from the dark theme, the storage failing. -/
theorem toggleTheme_flips_witness :
    ∃ s1 s2,
      toggleTheme { darkHost with setItemThrows := true }
          { blankTheme with dataTheme := some "dark" } = Except.ok s1 ∧
        toggleTheme { darkHost with setItemThrows := true } s1 = Except.ok s2 ∧
        s1.dataTheme = some "light" ∧ s2.dataTheme = some "dark" := by
  obtain ⟨s1, s2, h1, h2, -, hd, -, hback⟩ :=
    toggleTheme_flips { darkHost with setItemThrows := true }
      { blankTheme with dataTheme := some "dark" } (Or.inr rfl)
  exact ⟨s1, s2, h1, h2, hd rfl, hback⟩

/-- C14: whatever the active theme and whether `localStorage.setItem` succeeds
or raises, `toggleTheme` ends without raising and the active theme is
flipped ("light" becomes "dark", anything else becomes "light").  When the
write raises, the persisted copy keeps its old value and nothing else differs
from the outcome with a successful write; when the write succeeds, the
persisted value is the new active theme. -/
theorem toggleTheme_storage (h : Host) (s : ThemeState) :
    ∃ s1, toggleTheme h s = Except.ok s1 ∧
      (s.dataTheme = some "light" → s1.dataTheme = some "dark") ∧
      (s.dataTheme = some "dark" → s1.dataTheme = some "light") ∧
      (s.dataTheme ≠ some "light" → s1.dataTheme = some "light") ∧
      (h.setItemThrows = true → s1.stored = s.stored) ∧
      (h.setItemThrows = false → s1.stored = s1.dataTheme) ∧
      (∃ a b, toggleTheme { h with setItemThrows := true } s = Except.ok a ∧
        toggleTheme { h with setItemThrows := false } s = Except.ok b ∧
        a = { b with stored := s.stored }) := by
  obtain ⟨s1, h1, hl, hd, hfail, hok, -⟩ := toggleTheme_dataTheme h s
  have hne : (some "dark" : Option String) ≠ some "light" := by decide
  refine ⟨s1, h1, hl, fun hdark => hd (by rw [hdark]; exact hne), hd, hfail, hok, ?_⟩
  by_cases hlight : s.dataTheme = some "light"
  · refine ⟨applyTheme s "dark", { applyTheme s "dark" with stored := some "dark" }, ?_, ?_, ?_⟩
    · rw [toggleTheme_of_light _ s hlight, setTheme_persisted]
      rfl
    · rw [toggleTheme_of_light _ s hlight, setTheme_persisted]
      rfl
    · have := (applyTheme_fields s "dark").2.1
      cases hx : applyTheme s "dark"
      rw [hx] at this
      simp only at this
      simp [this]
  · have htog : ∀ h' : Host, toggleTheme h' s = setTheme h' s "light" true := by
      intro h'
      by_cases hdark : s.dataTheme = some "dark"
      · exact toggleTheme_of_dark h' s hdark
      · exact toggleTheme_of_other h' s hdark hlight
    refine ⟨applyTheme s "light", { applyTheme s "light" with stored := some "light" },
      ?_, ?_, ?_⟩
    · rw [htog, setTheme_persisted]
      rfl
    · rw [htog, setTheme_persisted]
      rfl
    · have := (applyTheme_fields s "light").2.1
      cases hx : applyTheme s "light"
      rw [hx] at this
      simp only at this
      simp [this]

theorem getStoredTheme_eq (h : Host) (s : ThemeState) :
    getStoredTheme h s =
      Except.ok (if h.getItemThrows then none else normalizeTheme s.stored) := by
  cases hr : h.getItemThrows <;> simp [getStoredTheme, localStorageGetItem, hr]

/-- The script body ends normally; the theme it applies is the stored theme
when that can be read and is valid, and the system theme otherwise. -/
theorem startTheme_result (h : Host) (s : ThemeState) :
    ∃ l, startTheme h s =
      Except.ok { applyTheme s
        ((if h.getItemThrows then none else normalizeTheme s.stored).getD (getSystemTheme h))
        with listening := l } := by
  simp only [startTheme, getStoredTheme_eq, setTheme_unpersisted, bind, Except.bind, pure,
    Except.pure]
  split_ifs <;> first | exact ⟨true, rfl⟩ | exact ⟨_, rfl⟩

/-- C13: whatever is persisted and whatever the host offers, the script body
ends normally and the initial theme is the persisted value when that value
can be read and is exactly "dark" or "light"; otherwise it is the system
theme the host reports, "dark" or "light" as the media query matches; and
"dark" when the host has no `matchMedia`.  The initial theme is always one of
the two, and the persisted value is left as it was. -/
theorem startTheme_initial (h : Host) (s : ThemeState) :
    ∃ s1, startTheme h s = Except.ok s1 ∧
      (h.getItemThrows = false → (s.stored = some "dark" ∨ s.stored = some "light") →
        s1.dataTheme = s.stored) ∧
      ((h.getItemThrows = true ∨ (s.stored ≠ some "dark" ∧ s.stored ≠ some "light")) →
        h.hasMatchMedia = true →
        s1.dataTheme = some (if h.prefersDark then "dark" else "light")) ∧
      ((h.getItemThrows = true ∨ (s.stored ≠ some "dark" ∧ s.stored ≠ some "light")) →
        h.hasMatchMedia = false → s1.dataTheme = some "dark") ∧
      (s1.dataTheme = some "dark" ∨ s1.dataTheme = some "light") ∧
      s1.stored = s.stored := by
  obtain ⟨l, hres⟩ := startTheme_result h s
  refine ⟨_, hres, ?_, ?_, ?_, ?_, ?_⟩
  · intro hr hvalid
    simp only [(applyTheme_fields s _).1, hr]
    rcases hvalid with hd | hl
    · simp [hd, normalizeTheme_dark]
    · simp [hl, normalizeTheme_light]
  · intro hinvalid hmm
    have hnone : (if h.getItemThrows then none else normalizeTheme s.stored) = none := by
      rcases hinvalid with hr | ⟨hd, hl⟩
      · simp [hr]
      · simp [normalizeTheme_other _ hd hl]
    simp only [(applyTheme_fields s _).1, hnone, Option.getD_none, getSystemTheme, hmm]
    cases h.prefersDark <;> rfl
  · intro hinvalid hmm
    have hnone : (if h.getItemThrows then none else normalizeTheme s.stored) = none := by
      rcases hinvalid with hr | ⟨hd, hl⟩
      · simp [hr]
      · simp [normalizeTheme_other _ hd hl]
    simp only [(applyTheme_fields s _).1, hnone, Option.getD_none, getSystemTheme, hmm]
    rfl
  · simp only [(applyTheme_fields s _).1]
    have hsys : getSystemTheme h = "dark" ∨ getSystemTheme h = "light" := by
      unfold getSystemTheme
      cases h.hasMatchMedia <;> cases h.prefersDark <;> simp
    by_cases hr : h.getItemThrows = true
    · simpa [hr] using hsys
    · have hr2 : h.getItemThrows = false := by simpa using hr
      by_cases hd : s.stored = some "dark"
      · simp [hr2, hd, normalizeTheme_dark]
      · by_cases hl : s.stored = some "light"
        · simp [hr2, hl, normalizeTheme_light]
        · simpa [hr2, normalizeTheme_other _ hd hl] using hsys
  · exact (applyTheme_fields s _).2.1

/-- C12 fails on the code.  A session on a host whose system scheme is dark,
with nothing stored: the script body applies "dark" and registers the change
handler; the user toggles to "light", which is stored; the system scheme
changes to light (the theme stays "light") and back to dark, and this last
notification sets the active theme to "dark" although the user has toggled.
The stored value still is "light".  In a session that starts with "light"
stored, the handler is not registered and the same notification changes
nothing. -/
theorem system_change_after_toggle :
    (∃ s, themeSession darkHost blankTheme [] = Except.ok s ∧
        s.dataTheme = some "dark" ∧ s.listening = true) ∧
      (∃ s, themeSession darkHost blankTheme [ThemeEvent.toggle] = Except.ok s ∧
        s.dataTheme = some "light" ∧ s.stored = some "light") ∧
      (∃ s, themeSession darkHost blankTheme
          [ThemeEvent.toggle, ThemeEvent.systemChange false] = Except.ok s ∧
        s.dataTheme = some "light") ∧
      (∃ s, themeSession darkHost blankTheme
          [ThemeEvent.toggle, ThemeEvent.systemChange false, ThemeEvent.systemChange true] =
            Except.ok s ∧
        s.dataTheme = some "dark" ∧ s.stored = some "light") ∧
      (∃ s, themeSession darkHost { blankTheme with stored := some "light" }
          [ThemeEvent.systemChange true] = Except.ok s ∧
        s.dataTheme = some "light" ∧ s.listening = false) :=
  ⟨⟨_, rfl, rfl, rfl⟩, ⟨_, rfl, rfl, rfl⟩, ⟨_, rfl, rfl⟩, ⟨_, rfl, rfl, rfl⟩, ⟨_, rfl, rfl, rfl⟩⟩

/-! ## Input handlers -/

theorem accepts_single_char (c : Char) :
    (stringGe (String.singleton c) "1" && stringLe (String.singleton c) "9") = true ↔
      49 ≤ c.toNat ∧ c.toNat ≤ 57 := by
  have h1 : (String.singleton c).toList = [c] := rfl
  have h2 : ("1" : String).toList = ['1'] := rfl
  have h3 : ("9" : String).toList = ['9'] := rfl
  have h4 : ('1' : Char).toNat = 49 := rfl
  have h5 : ('9' : Char).toNat = 57 := rfl
  simp only [stringGe, stringLe, h1, h2, h3, stringLt, h4, h5]
  by_cases ha : c.toNat < 49
  · simp [ha]
  · by_cases hb : 57 < c.toNat
    · simp [ha, hb]
    · simp [ha, hb]
      omega

theorem passedIndices_documentKeydown_rejected (s : State) (event : KeyEvent)
    (appHasFocus : Bool)
    (h : (stringGe event.key "1" && stringLe event.key "9") = false) :
    passedIndices (documentKeydown s event appHasFocus) = [] := by
  unfold documentKeydown
  split_ifs <;> first | rfl | simp_all

theorem char_of_digit_range (c : Char) (hlo : 49 ≤ c.toNat) (hhi : c.toNat ≤ 57) :
    c = '1' ∨ c = '2' ∨ c = '3' ∨ c = '4' ∨ c = '5' ∨ c = '6' ∨ c = '7' ∨ c = '8' ∨
      c = '9' := by
  have hc := Char.ofNat_toNat c
  generalize c.toNat = n at hlo hhi hc
  subst hc
  interval_cases n <;> decide

/-- A digit key "1".."9" is none of the letter keys, and its index
`Number.parseInt(key, 10) - 1` is the digit less one. -/
theorem digit_key_index (c : Char) (hlo : 49 ≤ c.toNat) (hhi : c.toNat ≤ 57) :
    ¬ (String.singleton c = "t" ∨ String.singleton c = "T") ∧
      ¬ (String.singleton c = "r" ∨ String.singleton c = "R") ∧
      (parseInt10 (some (String.singleton c))).bind (fun n => numberOfInt (n - 1)) =
        some ((c.toNat : Int) - 49) := by
  rcases char_of_digit_range c hlo hhi with
    rfl | rfl | rfl | rfl | rfl | rfl | rfl | rfl | rfl <;>
  exact ⟨by decide, by decide, by decide⟩

theorem documentKeydown_blocked (s : State) (event : KeyEvent) (appHasFocus : Bool)
    (h : (event.metaKey || event.ctrlKey || event.altKey) = true ∨ appHasFocus = false) :
    documentKeydown s event appHasFocus = [] := by
  unfold documentKeydown
  rcases h with h | h
  · rw [if_pos h]
  · split_ifs <;> first | rfl | simp_all

/-- What the document key listener does for a digit key that is not blocked by
a modifier or a focus outside the app. -/
theorem documentKeydown_digit (s : State) (c : Char) (event : KeyEvent)
    (hkey : event.key = String.singleton c) (hlo : 49 ≤ c.toNat) (hhi : c.toNat ≤ 57)
    (hmod : (event.metaKey || event.ctrlKey || event.altKey) = false) :
    documentKeydown s event true =
      if focusRaises s (some ((c.toNat : Int) - 49)) then
        [Call.setFocusedCell (some ((c.toNat : Int) - 49)) true]
      else
        [Call.setFocusedCell (some ((c.toNat : Int) - 49)) true,
          Call.tryPlayAt (some ((c.toNat : Int) - 49))] := by
  obtain ⟨ht, hr, hidx⟩ := digit_key_index c hlo hhi
  have hacc := (accepts_single_char c).2 ⟨hlo, hhi⟩
  unfold documentKeydown
  rw [hkey, hmod]
  simp only [Bool.false_eq_true, if_false, Bool.not_true, if_neg ht, if_neg hr, hacc, if_true,
    hidx]

theorem documentKeydown_single_char (s : State) (c : Char) (event : KeyEvent)
    (appHasFocus : Bool) (hkey : event.key = String.singleton c) :
    (∀ idx ∈ passedIndices (documentKeydown s event appHasFocus),
        (49 ≤ c.toNat ∧ c.toNat ≤ 57) ∧ idx = some ((c.toNat : Int) - 49) ∧
          inBoard idx = true) ∧
      (event.metaKey = false → event.ctrlKey = false → event.altKey = false →
        appHasFocus = true → 49 ≤ c.toNat → c.toNat ≤ 57 → s.tabIndex.length = 9 →
        documentKeydown s event appHasFocus =
          [Call.setFocusedCell (some ((c.toNat : Int) - 49)) true,
            Call.tryPlayAt (some ((c.toNat : Int) - 49))]) := by
  by_cases hrange : 49 ≤ c.toNat ∧ c.toNat ≤ 57
  · have hin : inBoard (some ((c.toNat : Int) - 49)) = true := by
      simp only [inBoard, Bool.and_eq_true, decide_eq_true_eq]
      omega
    constructor
    · intro idx hidx
      by_cases hblock :
          (event.metaKey || event.ctrlKey || event.altKey) = true ∨ appHasFocus = false
      · rw [documentKeydown_blocked s event appHasFocus hblock] at hidx
        cases hidx
      · have hmod : (event.metaKey || event.ctrlKey || event.altKey) = false := by
          cases hm : (event.metaKey || event.ctrlKey || event.altKey)
          · rfl
          · exact absurd (Or.inl hm) hblock
        have hfoc : appHasFocus = true := by
          cases appHasFocus
          · exact absurd (Or.inr rfl) hblock
          · rfl
        subst hfoc
        rw [documentKeydown_digit s c event hkey hrange.1 hrange.2 hmod] at hidx
        have : idx = some ((c.toNat : Int) - 49) := by
          split_ifs at hidx <;> simp [passedIndices] at hidx <;> exact hidx
        subst this
        exact ⟨hrange, rfl, hin⟩
    · intro hm hc ha hfoc hlo hhi hcells
      subst hfoc
      have hmod : (event.metaKey || event.ctrlKey || event.altKey) = false := by
        simp [hm, hc, ha]
      rw [documentKeydown_digit s c event hkey hlo hhi hmod]
      have hnoraise : focusRaises s (some ((c.toNat : Int) - 49)) = false := by
        unfold focusRaises
        apply setFocusedCell_threw
        · omega
        · rw [hcells]
          push_cast
          omega
      rw [hnoraise]
      rfl
  · have hrej : (stringGe event.key "1" && stringLe event.key "9") = false := by
      rw [hkey, Bool.eq_false_iff]
      intro h
      exact hrange ((accepts_single_char c).1 h)
    rw [passedIndices_documentKeydown_rejected s event appHasFocus hrej]
    constructor
    · intro idx hidx
      cases hidx
    · intro _ _ _ _ hlo hhi
      exact absurd ⟨hlo, hhi⟩ hrange

/-- The `focusin` listener inside `setFocusedCell` and the listener seen as a
list of calls are the same listener: the state changes by the call listed. -/
theorem focusinOnCell_eq_calls (s : State) (cell : Nat) :
    (boardFocusin (some (s.dataIndex.getD cell none)) = [] → focusinOnCell s cell = s) ∧
      (∀ n, boardFocusin (some (s.dataIndex.getD cell none)) =
          [Call.setFocusedCell (some n) false] →
        focusinOnCell s cell = (setFocusedCell s n false).state) := by
  unfold boardFocusin focusinOnCell
  cases hp : parseInt10 (s.dataIndex.getD cell none) with
  | none =>
    refine ⟨fun _ => rfl, ?_⟩
    intro n h
    simp only [hp] at h
    cases h
  | some m =>
    constructor
    · intro h
      simp only [hp] at h
      cases h
    · intro n h
      simp only [hp, List.cons.injEq, Call.setFocusedCell.injEq, Option.some.injEq,
        and_true] at h
      subst h
      rfl

theorem boardKeydown_inBoard (key : String) :
    ∀ idx ∈ passedIndices (boardKeydown key), inBoard idx = true := by
  unfold boardKeydown
  split_ifs <;> decide

/-- `Number.parseInt` gives a double: the integer 2^53 + 1 is read as 2^53. -/
theorem parseInt10_rounds :
    parseInt10 (some "9007199254740993") = some 9007199254740992 ∧
      parseInt10 (some "9007199254740992") = some 9007199254740992 ∧
      parseInt10 (some "12px") = some 12 ∧ parseInt10 (some "x12") = none ∧
      parseInt10 none = none := by
  refine ⟨by decide, by decide, by decide, by decide, by decide⟩

/-- C17, as stated, fails: a click on a cell, or a focus entering a cell, whose
`data-index` is "9" passes the index 9, which is not in 0..8, to
`setFocusedCell`, and the click passes it to `tryPlayAt` as well; a
`data-index` of "-1" passes -1.  The listeners test `Number.isFinite` only.
Likewise the key test of the document listener compares strings: a `key` of
"10" lies between "1" and "9" and passes the index 9 to `setFocusedCell`, which
with nine cells raises before `tryPlayAt` is reached. -/
theorem handlers_out_of_range_counterexample :
    boardClick (some (some "9")) =
        [Call.setFocusedCell (some 9) false, Call.tryPlayAt (some 9)] ∧
      boardFocusin (some (some "9")) = [Call.setFocusedCell (some 9) false] ∧
      inBoard (some 9) = false ∧
      passedIndices (boardClick (some (some "-1"))) = [some (-1), some (-1)] ∧
      inBoard (some (-1)) = false ∧
      documentKeydown (initialState 9) (plainKey "10") true =
        [Call.setFocusedCell (some 9) true] := by
  refine ⟨by decide, by decide, by decide, by decide, by decide, by decide⟩

/-- C17, amended: the document key listener, for an event whose `key` is a
single character, passes an index only for the keys "1".."9", and without
modifier, with the focus in the app and with nine cells it passes, for the
digit d, the index d - 1, which is in 0..8, to `setFocusedCell` and then to
`tryPlayAt`; the board key listener passes only 0 (Home) and 8 (End); the
click and focus-in listeners of the board pass on the number
`Number.parseInt` reads from the cell's `data-index` whenever that number is
finite, without a range test, so that what they pass is in 0..8 exactly when
the `data-index` of the cell is, and they pass nothing otherwise. -/
theorem handlers_pass_indices (s : State) (c : Char) (event : KeyEvent) (appHasFocus : Bool)
    (cell : Option (Option String)) (key : String)
    (hkey : event.key = String.singleton c) :
    (∀ idx ∈ passedIndices (documentKeydown s event appHasFocus),
        (49 ≤ c.toNat ∧ c.toNat ≤ 57) ∧ idx = some ((c.toNat : Int) - 49) ∧
          inBoard idx = true) ∧
      (event.metaKey = false → event.ctrlKey = false → event.altKey = false →
        appHasFocus = true → 49 ≤ c.toNat → c.toNat ≤ 57 → s.tabIndex.length = 9 →
        documentKeydown s event appHasFocus =
          [Call.setFocusedCell (some ((c.toNat : Int) - 49)) true,
            Call.tryPlayAt (some ((c.toNat : Int) - 49))]) ∧
      (∀ idx ∈ passedIndices (boardKeydown key), inBoard idx = true) ∧
      (∀ idx ∈ passedIndices (boardClick cell) ++ passedIndices (boardFocusin cell),
        ∃ dataIndex n, cell = some dataIndex ∧ parseInt10 dataIndex = some n ∧
          idx = some n ∧ (inBoard idx = true ↔ 0 ≤ n ∧ n ≤ 8)) ∧
      (∀ dataIndex n, cell = some dataIndex → parseInt10 dataIndex = some n →
        boardClick cell = [Call.setFocusedCell (some n) false, Call.tryPlayAt (some n)] ∧
          boardFocusin cell = [Call.setFocusedCell (some n) false]) ∧
      (∀ dataIndex, cell = some dataIndex → parseInt10 dataIndex = none →
        boardClick cell = [] ∧ boardFocusin cell = []) := by
  refine ⟨(documentKeydown_single_char s c event appHasFocus hkey).1,
    (documentKeydown_single_char s c event appHasFocus hkey).2, boardKeydown_inBoard key,
    ?_, ?_, ?_⟩
  · intro idx hidx
    cases cell with
    | none => simp [boardClick, boardFocusin, passedIndices] at hidx
    | some dataIndex =>
      cases hp : parseInt10 dataIndex with
      | none => simp [boardClick, boardFocusin, passedIndices, hp] at hidx
      | some n =>
        have hidx2 : idx = some n := by
          simp [boardClick, boardFocusin, passedIndices, hp] at hidx
          exact hidx
        refine ⟨dataIndex, n, rfl, hp, hidx2, ?_⟩
        rw [hidx2]
        simp [inBoard]
  · intro dataIndex n hcell hp
    subst hcell
    simp [boardClick, boardFocusin, hp]
  · intro dataIndex hcell hp
    subst hcell
    simp [boardClick, boardFocusin, hp]

/-- Witness for C17 as amended: the key "5" selects the cell of index 4. -/
theorem handlers_pass_indices_witness :
    documentKeydown (initialState 9) (plainKey "5") true =
      [Call.setFocusedCell (some 4) true, Call.tryPlayAt (some 4)] :=
  (handlers_pass_indices (initialState 9) '5' (plainKey "5") true none "" rfl).2.1
    rfl rfl rfl rfl (by decide) (by decide) (by decide)

end TicTacToe
